import Mathlib

set_option maxRecDepth 8000

/-!
# Verification of the Uplink payment client (`onchainfi/uplink`)

Shallow embedding of the payment-execution pipeline of the JavaScript SDK
(`javascript/src/client.ts` — the current multi-facilitator version — and
`signer.ts`, `errors.ts`, `types.ts`).

Modelling conventions:
* JavaScript strings are modelled as `List Char`.
* JavaScript numbers are modelled as exact rationals `ℚ`; `NaN` is modelled by
  `Option ℚ` at the points where the source can produce it (`parseFloat`).
  IEEE-754 rounding of individual arithmetic operations is not modelled; all
  divergences claimed below are witnessed by exact decimal inputs on which the
  rational and floating computations agree in the relevant digits.
* `Number.prototype.toFixed(d)` renders with round-half-away-from-zero on the
  absolute value, sign prepended when the input is negative, matching the
  ECMAScript algorithm (the exponential form for magnitudes ≥ 1e21 is not
  modelled).
* Whitespace is modelled by the four common ASCII whitespace characters.
* Network and RPC interactions are oracles passed in as explicit arguments.
-/

instance {ε α : Type} [DecidableEq ε] [DecidableEq α] (x y : Except ε α) : Decidable (x = y) := by
  cases x <;> cases y
  · exact decidable_of_iff _ (iff_of_eq (Except.error.injEq _ _)).symm
  · exact isFalse fun h => by cases h
  · exact isFalse fun h => by cases h
  · exact decidable_of_iff _ (iff_of_eq (Except.ok.injEq _ _)).symm

namespace Uplink

/-- Whitespace recognised by the models of `String.prototype.trim` and of the
leading-whitespace skipping of `parseFloat`. -/
def isWS (c : Char) : Bool := c = ' ' || c = '\t' || c = '\n' || c = '\r'

/-- ASCII decimal digit test. -/
def isDigit (c : Char) : Bool := '0' ≤ c && c ≤ '9'

/-- Numeric value of a digit character. -/
def digToNat (c : Char) : ℕ := c.toNat - '0'.toNat

/-- The digit character for `d` (values ≥ 9 render as `'9'`; only `d < 10` is
ever used). -/
def digitChar (d : ℕ) : Char :=
  if d = 0 then '0' else if d = 1 then '1' else if d = 2 then '2'
  else if d = 3 then '3' else if d = 4 then '4' else if d = 5 then '5'
  else if d = 6 then '6' else if d = 7 then '7' else if d = 8 then '8' else '9'

/-- `String.prototype.trimStart` model. -/
def trimLeft (l : List Char) : List Char := l.dropWhile isWS

/-- `String.prototype.trimEnd` model. -/
def trimRight : List Char → List Char
  | [] => []
  | c :: t =>
    match trimRight t with
    | [] => if isWS c then [] else [c]
    | r => c :: r

/-- `String.prototype.trim` model. -/
def trim (l : List Char) : List Char := trimLeft (trimRight l)

/-- `.replace(/[$]/g, '')`: delete every dollar sign. -/
def removeDollar (l : List Char) : List Char := l.filter (fun c => c != '$')

/-- Case-insensitive letter tests for the `/USDC/gi` pattern. -/
def isU (c : Char) : Bool := c = 'U' || c = 'u'

def isS (c : Char) : Bool := c = 'S' || c = 's'

def isD (c : Char) : Bool := c = 'D' || c = 'd'

def isC (c : Char) : Bool := c = 'C' || c = 'c'

/-- Does the list begin with a (case-insensitive) occurrence of `"USDC"`? -/
def usdcAt : List Char → Bool
  | c1 :: c2 :: c3 :: c4 :: _ => isU c1 && isS c2 && isD c3 && isC c4
  | _ => false

/-- `.replace(/USDC/gi, '')`: left-to-right, non-overlapping removal of every
case-insensitive occurrence of `"USDC"`. -/
def removeU : List Char → List Char
  | c1 :: c2 :: c3 :: c4 :: rest =>
    if isU c1 && isS c2 && isD c3 && isC c4 then removeU rest
    else c1 :: removeU (c2 :: c3 :: c4 :: rest)
  | l => l

/-- Digit string to natural number (most significant digit first). -/
def digitsToNat (l : List Char) : ℕ := l.foldl (fun a c => 10 * a + digToNat c) 0

/-- Fuelled decimal rendering of a natural number (fuel strictly above `n`
always suffices). -/
def natToCharsAux : ℕ → ℕ → List Char
  | 0, _ => []
  | fuel + 1, n =>
    if n < 10 then [digitChar n]
    else natToCharsAux fuel (n / 10) ++ [digitChar (n % 10)]

/-- Decimal rendering of a natural number. -/
def natToChars (n : ℕ) : List Char := natToCharsAux (n + 1) n

/-- Exponent part of a JavaScript float literal; an absent or malformed
exponent contributes 0 (matching `parseFloat`, which rolls back an exponent
without digits). -/
def expPart (r : List Char) : ℤ :=
  if r.head? = some 'e' || r.head? = some 'E' then
    let t := r.tail
    if t.head? = some '-' then -(digitsToNat (t.tail.takeWhile isDigit) : ℤ)
    else if t.head? = some '+' then (digitsToNat (t.tail.takeWhile isDigit) : ℤ)
    else (digitsToNat (t.takeWhile isDigit) : ℤ)
  else 0

/-- The unsigned remainder of a JavaScript float literal, after whitespace and
an optional sign have been consumed: an integer part, an optional fractional
part, an optional exponent, and ignored trailing garbage; `none` models `NaN`
(no digits found). -/
def parseAfterSign (sgn : ℚ) (s2 : List Char) : Option ℚ :=
  let ip := s2.takeWhile isDigit
  let r1 := s2.dropWhile isDigit
  let fp := if r1.head? = some '.' then r1.tail.takeWhile isDigit else []
  let r2 := if r1.head? = some '.' then r1.tail.dropWhile isDigit else r1
  if ip = [] && fp = [] then none
  else
    let mant : ℚ := (digitsToNat ip : ℚ) + (digitsToNat fp : ℚ) / 10 ^ fp.length
    let ex : ℤ := expPart r2
    let scaled : ℚ := if 0 ≤ ex then mant * 10 ^ ex.toNat else mant / 10 ^ (-ex).toNat
    some (sgn * scaled)

/-- Model of JavaScript `parseFloat`: skip leading whitespace, read an optional
sign, then the unsigned remainder.  The special literal `"Infinity"` is not
modelled. -/
def parseFloat (s : List Char) : Option ℚ :=
  let s1 := s.dropWhile isWS
  if s1.head? = some '-' then parseAfterSign (-1) s1.tail
  else if s1.head? = some '+' then parseAfterSign 1 s1.tail
  else parseAfterSign 1 s1

/-- The integer `n` such that `toFixed(d)` renders `|q|` as `n` scaled by
`10^d` (ECMAScript rounding: nearest, ties away from zero on the absolute
value). -/
def toFixedScaled (d : ℕ) (q : ℚ) : ℕ := (Int.floor (|q| * 10 ^ d + 1 / 2)).toNat

/-- Pad a digit string on the left with zeros to width `d`. -/
def zeroPad (d : ℕ) (l : List Char) : List Char := List.replicate (d - l.length) '0' ++ l

/-- Model of `Number.prototype.toFixed(d)` for `d ≥ 1` (the exponential form
taken for magnitudes ≥ 1e21 is not modelled). -/
def toFixedStr (d : ℕ) (q : ℚ) : List Char :=
  let n := toFixedScaled d q
  (if q < 0 then ['-'] else []) ++ natToChars (n / 10 ^ d) ++ '.' :: zeroPad d (natToChars (n % 10 ^ d))

/-- The rational value denoted by `toFixedStr d q`. -/
def toFixedVal (d : ℕ) (q : ℚ) : ℚ := (if q < 0 then -1 else 1) * (toFixedScaled d q : ℚ) / 10 ^ d

/-- Error taxonomy of the SDK (`errors.ts`), with the validation errors the
claims inspect carried as structured data instead of interpolated message
strings. -/
inductive UErr where
  /-- `ValidationError` "Invalid amount format: ..." from `_parseAmount`. -/
  | invalidFormat (amount : List Char)
  /-- `ValidationError` "Invalid amount for fee calculation" from `calculateFees`. -/
  | invalidAmount
  /-- `ValidationError` "Insufficient payment amount" from `pay`; carries the
  itemized processing fee, the ATA-creation fee when displayed, and the
  computed minimum viable payment. -/
  | insufficientAmount (processingFee : List Char) (ataFee : Option (List Char))
      (minimumPayment : List Char)
  /-- `ValidationError` "API key is required". -/
  | apiKeyRequired
  /-- `ValidationError` for a missing `createAtaFeeAcceptance` flag. -/
  | ataAcceptanceRequired
  /-- `ValidationError` for a missing `minimumCrosschainFeeAcceptance` flag. -/
  | crosschainAcceptanceRequired
  /-- `ValidationError` "... signer not configured". -/
  | signerNotConfigured
  /-- `AuthenticationError` "Invalid API key". -/
  | authenticationFailed
  /-- `PaymentError` "Fee validation failed ..." (`FEE_MISMATCH`). -/
  | feeMismatchFailed (reason : List Char)
  /-- `PaymentError` "Payment failed: ...". -/
  | paymentFailed (reason : List Char)
  /-- `NetworkError`. -/
  | networkFailed (msg : List Char)
  /-- `SigningError`. -/
  | signingFailed
deriving DecidableEq

/-- `Uplink._parseAmount`: trim, strip `$` and `USDC` decoration, re-trim,
parse, and render with two decimal places. -/
def _parseAmount (amount : List Char) : Except UErr (List Char) :=
  let normalized := trim (removeU (removeDollar (trim amount)))
  match parseFloat normalized with
  | none => .error (.invalidFormat amount)
  | some value => .ok (toFixedStr 2 value)

/-- Fee configuration snapshot from the prepare-payment response
(`types.ts`, `FeeConfig`; the `tier` label does not enter any computation and
is omitted). -/
structure FeeConfig where
  samechainFeePercent : ℚ
  crosschainFeePercent : ℚ
  minimumCrosschainFee : ℚ
  ataCreationFee : ℚ
deriving DecidableEq

/-- `types.ts`, `ATACheck`. -/
structure ATACheck where
  needsCreation : Bool
  applicable : Bool
deriving DecidableEq

/-- `types.ts`, `PreparePaymentResponse` (the server-computed `calculatedFees`
echo is not used by the client and is omitted). -/
structure PreparePaymentResponse where
  feeConfig : FeeConfig
  ataCheck : ATACheck
  signToAddress : List Char
  bridgeOrderId : Option (List Char)
  sourceNetwork : List Char
  destinationNetwork : List Char
  isCrossChain : Bool
deriving DecidableEq

/-- `types.ts`, `CalculatedFees`: the five amounts are strings produced with
`toFixed(6)`. -/
structure CalculatedFees where
  grossAmount : List Char
  processingFee : List Char
  ataFee : List Char
  totalFees : List Char
  netAmount : List Char
  processingFeePercent : ℚ
  minimumFeeApplied : Bool
deriving DecidableEq

/-- `Uplink.calculateFees` (client.ts lines 183–228): recompute the fee
breakdown locally from the server-provided configuration. -/
def calculateFees (prepareData : PreparePaymentResponse) (grossAmount : List Char) :
    Except UErr CalculatedFees :=
  match parseFloat grossAmount with
  | none => .error .invalidAmount
  | some grossAmountNum =>
    if grossAmountNum ≤ 0 then .error .invalidAmount
    else
      let feePercent := if prepareData.isCrossChain then prepareData.feeConfig.crosschainFeePercent
        else prepareData.feeConfig.samechainFeePercent
      let pctFee := grossAmountNum * feePercent / 100
      let minApplies := prepareData.isCrossChain
        && decide (0 < prepareData.feeConfig.minimumCrosschainFee)
        && decide (pctFee < prepareData.feeConfig.minimumCrosschainFee)
      let processingFee := if minApplies then prepareData.feeConfig.minimumCrosschainFee else pctFee
      let ataFee := if prepareData.ataCheck.needsCreation then prepareData.feeConfig.ataCreationFee else 0
      let totalFees := processingFee + ataFee
      let netAmount := max 0 (grossAmountNum - totalFees)
      .ok { grossAmount := toFixedStr 6 grossAmountNum
          , processingFee := toFixedStr 6 processingFee
          , ataFee := toFixedStr 6 ataFee
          , totalFees := toFixedStr 6 totalFees
          , netAmount := toFixedStr 6 netAmount
          , processingFeePercent := feePercent
          , minimumFeeApplied := minApplies }

/-- `signer.ts`: the hardcoded default (PayAI) Solana fee payer. -/
def PAYAI_FEE_PAYER : List Char := "2wKupLR9q6wXYppw8Gr2NvWxKBUqm4PPJKkQfoxHDBg4".toList

/-- The `TransferWithAuthorization` message signed by the EVM signer (the
random 32-byte nonce and the EIP-712 signature bytes are not modelled; the
claims concern the authorized value). -/
structure EvmAuthorization where
  fromAddr : List Char
  toAddr : List Char
  value : ℤ
  validAfter : ℤ
  validBefore : ℤ
deriving DecidableEq

/-- The x402 envelope produced by `EVMSigner.signPayment` (base64 encoding of
the JSON envelope is not modelled; the envelope is kept structured). -/
structure EvmHeader where
  x402Version : ℕ
  scheme : List Char
  network : List Char
  authorization : EvmAuthorization
deriving DecidableEq

/-- Deterministic inputs of the EVM signer: its address and the wall clock. -/
structure EvmSignContext where
  signerAddress : List Char
  nowEpochSeconds : ℤ
deriving DecidableEq

/-- `EVMSigner.signPayment` (signer.ts lines 397–475): convert to atomic
units (6 decimals, `Math.floor`), sign a transfer authorization, and wrap it
in the x402 envelope.  An unparsable amount makes `BigInt(NaN)` throw, which
the surrounding try/catch wraps as a `SigningError`. -/
def EVMSigner.signPayment (ctx : EvmSignContext) (toAddr amount : List Char)
    (sourceNetwork : List Char) (_destinationNetwork : List Char) : Except UErr EvmHeader :=
  match parseFloat amount with
  | none => .error .signingFailed
  | some amountFloat =>
    let amountAtomic : ℤ := Int.floor (amountFloat * 1000000)
    .ok { x402Version := 1
        , scheme := "exact".toList
        , network := sourceNetwork
        , authorization :=
          { fromAddr := ctx.signerAddress, toAddr := toAddr, value := amountAtomic
          , validAfter := 0, validBefore := ctx.nowEpochSeconds + 3600 } }

/-- Solana instructions distinguished by the claims. -/
inductive SolInstr where
  | computeUnitLimit (units : ℕ)
  | computeUnitPrice (microLamports : ℕ)
  | createAssociatedTokenAccount
  | transferChecked (amount : ℤ) (decimals : ℕ)
deriving DecidableEq

/-- Chain state the Solana signer reads over RPC: whether the destination's
associated token account already exists, and the mint's decimals. -/
structure SolanaChain where
  destinationAtaExists : Bool
  mintDecimals : ℕ
deriving DecidableEq

/-- The partially signed versioned transaction (blockhash and signature bytes
are not modelled). -/
structure SolanaTx where
  feePayer : List Char
  instructions : List SolInstr
  amountAtomic : ℤ
deriving DecidableEq

/-- The x402 envelope produced by `SolanaSigner.signPayment`; the cross-chain
metadata pair is `(destinationNetwork, destinationAddress)`. -/
structure SolanaHeader where
  x402Version : ℕ
  scheme : List Char
  network : List Char
  transaction : SolanaTx
  crossChainMeta : Option (List Char × List Char)
deriving DecidableEq

/-- Modelled from the spec: the current `SolanaSigner.signPayment` carrying the
optional `feePayer` parameter is not present under `src/` — the only copy of
`signer.ts` there (`src/unnamed/part_004`, lines 512–634) is a superseded
variant without that parameter, while the current `client.ts` passes a fifth
fee-payer argument and spec §4.5 step (5) specifies compilation of "a
versioned message whose fee payer is the externally supplied fee-payer address
(falling back to a hardcoded default fee payer if none is supplied)".
Everything except the fee-payer parameter (atomic conversion, instruction
assembly and ordering, envelope, cross-chain metadata) follows
`src/unnamed/part_004` lines 512–634 verbatim. -/
def SolanaSigner.signPayment (chain : SolanaChain)
    (toAddr amount sourceNetwork destinationNetwork : List Char)
    (feePayer : Option (List Char)) : Except UErr SolanaHeader :=
  match parseFloat amount with
  | none => .error .signingFailed
  | some amountFloat =>
    let amountLamports : ℤ := Int.floor (amountFloat * 1000000)
    let instructions : List SolInstr :=
      [.computeUnitLimit 40000, .computeUnitPrice 1]
        ++ (if chain.destinationAtaExists then [] else [.createAssociatedTokenAccount])
        ++ [.transferChecked amountLamports chain.mintDecimals]
    let feePayerPubkey := feePayer.getD PAYAI_FEE_PAYER
    .ok { x402Version := 1
        , scheme := "exact".toList
        , network := sourceNetwork
        , transaction :=
          { feePayer := feePayerPubkey, instructions := instructions
          , amountAtomic := amountLamports }
        , crossChainMeta :=
          if sourceNetwork ≠ destinationNetwork then some (destinationNetwork, toAddr) else none }

/-- One entry of the `/v1/facilitators/ranked` response. -/
structure RankedFacilitator where
  facilitatorName : List Char
  facilitatorId : List Char
  solanaFeePayer : Option (List Char)
deriving DecidableEq

/-- Oracle for the facilitator-ranking request of `_signPayment`. -/
inductive RankResp where
  | ok (facilitators : List RankedFacilitator)
  | httpError
  | netException
deriving DecidableEq

/-- A signed payment header: EVM envelope, Solana envelope, or a caller-provided
opaque header (Mode B). -/
inductive HeaderPayload where
  | evm (h : EvmHeader)
  | sol (h : SolanaHeader)
  | provided (raw : List Char)
deriving DecidableEq

/-- `types.ts`, `FacilitatorHeader`. -/
structure FacilitatorHeader where
  facilitatorName : List Char
  facilitatorId : List Char
  paymentHeader : HeaderPayload
  solanaFeePayer : Option (List Char) := none
deriving DecidableEq

/-- The per-facilitator signing loop of `Uplink._signPayment` (client.ts lines
501–525): skip facilitators without a fee payer, sign one header per remaining
facilitator with that facilitator's fee payer. -/
def buildSolanaHeaders (chain : SolanaChain) (toAddr amount sourceNetwork destinationNetwork : List Char) :
    List RankedFacilitator → Except UErr (List FacilitatorHeader)
  | [] => .ok []
  | f :: rest =>
    match f.solanaFeePayer with
    | none => buildSolanaHeaders chain toAddr amount sourceNetwork destinationNetwork rest
    | some feePayerAddress =>
      match SolanaSigner.signPayment chain toAddr amount sourceNetwork destinationNetwork
          (some feePayerAddress) with
      | .error e => .error e
      | .ok header =>
        match buildSolanaHeaders chain toAddr amount sourceNetwork destinationNetwork rest with
        | .error e => .error e
        | .ok hs =>
          .ok ({ facilitatorName := f.facilitatorName, facilitatorId := f.facilitatorId
               , paymentHeader := .sol header, solanaFeePayer := some feePayerAddress } :: hs)

/-- The fallback of `Uplink._signPayment`: a single header signed with the
default fee payer, attributed to the PayAI facilitator. -/
def solanaFallbackHeader (chain : SolanaChain)
    (toAddr amount sourceNetwork destinationNetwork : List Char) :
    Except UErr (List FacilitatorHeader) :=
  match SolanaSigner.signPayment chain toAddr amount sourceNetwork destinationNetwork none with
  | .error e => .error e
  | .ok header =>
    .ok [{ facilitatorName := "PayAI".toList, facilitatorId := "unknown".toList
         , paymentHeader := .sol header }]

/-- The Solana branch of `Uplink._signPayment` (client.ts lines 463–549): on a
usable ranking response sign one header per fee-payer-bearing facilitator; on
an HTTP error, an exception (including a signing failure inside the loop,
which the surrounding catch turns into the fallback), or an empty ranking,
fall back to a single default-fee-payer header. -/
def _signPaymentSolana (chain : SolanaChain) (rank : RankResp)
    (toAddr amount sourceNetwork destinationNetwork : List Char) :
    Except UErr (List FacilitatorHeader) :=
  match rank with
  | .httpError => solanaFallbackHeader chain toAddr amount sourceNetwork destinationNetwork
  | .netException => solanaFallbackHeader chain toAddr amount sourceNetwork destinationNetwork
  | .ok facilitators =>
    if facilitators.isEmpty then
      solanaFallbackHeader chain toAddr amount sourceNetwork destinationNetwork
    else
      match buildSolanaHeaders chain toAddr amount sourceNetwork destinationNetwork facilitators with
      | .ok hs => .ok hs
      | .error _ => solanaFallbackHeader chain toAddr amount sourceNetwork destinationNetwork

/-- The EVM branch of `Uplink._signPayment` (client.ts lines 550–563): a single
facilitator-agnostic header. -/
def _signPaymentEvm (ctx : EvmSignContext)
    (toAddr amount sourceNetwork destinationNetwork : List Char) :
    Except UErr (List FacilitatorHeader) :=
  match EVMSigner.signPayment ctx toAddr amount sourceNetwork destinationNetwork with
  | .error e => .error e
  | .ok header =>
    .ok [{ facilitatorName := "all".toList, facilitatorId := "all".toList
         , paymentHeader := .evm header }]

/-- Oracle for one settlement submission of the failover loop. -/
inductive SettleResp where
  | success (txHash : List Char)
  | http401
  | feeMismatch (reason : List Char)
  | failure (reason : List Char)
  | netError (msg : List Char)
deriving DecidableEq

/-- Is this settlement outcome one the loop retries with the next facilitator? -/
def isRetryable : SettleResp → Bool
  | .failure _ => true
  | .netError _ => true
  | _ => false

/-- The error recorded in `lastError` for a retryable settlement outcome. -/
def settleErr : SettleResp → Option UErr
  | .failure r => some (.paymentFailed r)
  | .netError m => some (.networkFailed m)
  | _ => none

/-- The settlement failover loop of `Uplink.pay` (client.ts lines 331–448):
submit header `i`; stop on success; abort on a 401 (`AuthenticationError`) or
a `FEE_MISMATCH` response; on an ordinary failure or a network error record it
as `lastError` and move to the next header, surfacing `lastError` when no
header remains.  Returns the list of attempted indices and the outcome. -/
def settleLoop (resp : ℕ → SettleResp) :
    ℕ → List FacilitatorHeader → Option UErr → List ℕ × Except UErr (List Char)
  | _, [], lastError =>
    ([], .error (lastError.getD (.networkFailed ("Payment failed with all facilitators".toList))))
  | i, _ :: rest, _ =>
    match resp i with
    | .success txHash => ([i], .ok txHash)
    | .http401 => ([i], .error .authenticationFailed)
    | .feeMismatch reason => ([i], .error (.feeMismatchFailed reason))
    | .failure reason =>
      let next := settleLoop resp (i + 1) rest (some (.paymentFailed reason))
      (i :: next.1, next.2)
    | .netError msg =>
      let next := settleLoop resp (i + 1) rest (some (.networkFailed msg))
      (i :: next.1, next.2)

/-- JavaScript `<` on two possibly-NaN numbers (`NaN < x` and `x < NaN` are
false). -/
def ltOpt : Option ℚ → Option ℚ → Bool
  | some a, some b => decide (a < b)
  | _, _ => false

/-- JavaScript `> 0` on a possibly-NaN number. -/
def gt0Opt : Option ℚ → Bool
  | some a => decide (0 < a)
  | none => false

/-- Steps 2–5 of `Uplink.pay` (client.ts lines 259–448) after the preparation
request: recompute fees from the raw caller amount, reject when the reparsed
gross amount is below the reparsed total fees (itemizing the processing fee,
the ATA fee when positive, and `totalFees + 0.01` rendered with two decimals),
then sign and run the settlement failover.  `signResult` is the value
`_signPayment` would produce; passing it as a parameter lets the theorems
state that a rejection is independent of it (no signer is invoked).  Mode B
(caller-provided header) corresponds to `signResult` being a single
`provided` header. -/
def pay (prepareData : PreparePaymentResponse) (amount : List Char)
    (signResult : Except UErr (List FacilitatorHeader)) (resp : ℕ → SettleResp) :
    Except UErr (List Char) :=
  match calculateFees prepareData amount with
  | .error e => .error e
  | .ok calculatedFees =>
    let grossAmountNum := parseFloat calculatedFees.grossAmount
    let totalFeesNum := parseFloat calculatedFees.totalFees
    if ltOpt grossAmountNum totalFeesNum then
      .error (.insufficientAmount calculatedFees.processingFee
        (if gt0Opt (parseFloat calculatedFees.ataFee) then some calculatedFees.ataFee else none)
        (toFixedStr 2 (totalFeesNum.getD 0 + 1 / 100)))
    else
      match signResult with
      | .error e => .error e
      | .ok facilitatorHeaders => (settleLoop resp 0 facilitatorHeaders none).2

/-- Does the trimmed address start with `"0x"`? -/
def startsWith0x : List Char → Bool
  | a :: b :: _ => a = '0' && b = 'x'
  | _ => false

/-- Membership in the base58 alphabet `[1-9A-HJ-NP-Za-km-z]`. -/
def base58Char (c : Char) : Bool :=
  ('1' ≤ c && c ≤ '9') || ('A' ≤ c && c ≤ 'H') || ('J' ≤ c && c ≤ 'N')
    || ('P' ≤ c && c ≤ 'Z') || ('a' ≤ c && c ≤ 'k') || ('m' ≤ c && c ≤ 'z')

/-- Does the list begin with `".eth"`? -/
def dotEthAt : List Char → Bool
  | a :: b :: c :: d :: _ => a = '.' && b = 'e' && c = 't' && d = 'h'
  | _ => false

/-- `addr.includes('.eth')`. -/
def containsDotEth : List Char → Bool
  | [] => false
  | c :: t => dotEthAt (c :: t) || containsDotEth t

/-- `Uplink._detectNetworkFromAddress` (client.ts lines 588–609). -/
def _detectNetworkFromAddress (configNetwork : List Char) (address : List Char) : List Char :=
  let addr := trim address
  if startsWith0x addr && decide (addr.length = 42) then "base".toList
  else if decide (32 ≤ addr.length) && decide (addr.length ≤ 44)
      && !addr.isEmpty && addr.all base58Char then "solana".toList
  else if containsDotEth addr then "base".toList
  else configNetwork

/-- The caller-supplied constructor configuration (`types.ts`, `UplinkConfig`);
fields that do not enter the validated behaviour (`apiUrl`, retries, timeout,
RPC URL, private key) are omitted.  `Option Bool` models an optional JavaScript
boolean whose absence is falsy. -/
structure UplinkConfigIn where
  apiKey : List Char
  network : Option (List Char) := none
  createAtaFeeAcceptance : Option Bool := none
  minimumCrosschainFeeAcceptance : Option Bool := none
deriving DecidableEq

/-- The defaults-resolved configuration held by a constructed client. -/
structure ResolvedConfig where
  apiKey : List Char
  network : List Char
  createAtaFeeAcceptance : Bool
  minimumCrosschainFeeAcceptance : Bool
deriving DecidableEq

/-- The `Uplink` constructor (client.ts lines 35–114): validation of the API
key and of the two fee-acceptance flags, then default resolution.  JavaScript
truthiness: an empty string is falsy; an absent or `false` flag is falsy. -/
def UplinkConstructor (config : UplinkConfigIn) : Except UErr ResolvedConfig :=
  if config.apiKey = [] then .error .apiKeyRequired
  else if config.createAtaFeeAcceptance ≠ some true then .error .ataAcceptanceRequired
  else if config.minimumCrosschainFeeAcceptance ≠ some true then .error .crosschainAcceptanceRequired
  else .ok { apiKey := config.apiKey
           , network := config.network.getD ("base".toList)
           , createAtaFeeAcceptance := config.createAtaFeeAcceptance.getD false
           , minimumCrosschainFeeAcceptance := config.minimumCrosschainFeeAcceptance.getD false }

/-! ### Concrete instances used by witnesses and counterexamples -/

/-- The documented standard fee configuration: 0.1% same-chain, 0.1%
cross-chain, $0.01 cross-chain minimum, $0.40 ATA creation. -/
def exFeeCfg : FeeConfig :=
  { samechainFeePercent := 1/10, crosschainFeePercent := 1/10
  , minimumCrosschainFee := 1/100, ataCreationFee := 2/5 }

/-- A cross-chain preparation response whose destination account exists. -/
def exPrepCross : PreparePaymentResponse :=
  { feeConfig := exFeeCfg, ataCheck := ⟨false, true⟩, signToAddress := "W".toList
  , bridgeOrderId := none, sourceNetwork := "base".toList
  , destinationNetwork := "solana".toList, isCrossChain := true }

/-- A cross-chain preparation response whose destination needs a new token
account (the spec's insufficient-amount scenario: fees $0.01 + $0.40). -/
def exPrepCrossAta : PreparePaymentResponse :=
  { exPrepCross with ataCheck := ⟨true, true⟩ }

/-- A zero-fee same-chain preparation response. -/
def exPrepSame : PreparePaymentResponse :=
  { feeConfig := { samechainFeePercent := 0, crosschainFeePercent := 0
                 , minimumCrosschainFee := 0, ataCreationFee := 0 }
  , ataCheck := ⟨false, false⟩, signToAddress := "W".toList, bridgeOrderId := none
  , sourceNetwork := "base".toList, destinationNetwork := "base".toList
  , isCrossChain := false }

/-- A pathological server fee configuration: negative cross-chain percent and a
zero configured minimum. -/
def exPrepNeg : PreparePaymentResponse :=
  { exPrepCross with feeConfig :=
    { samechainFeePercent := 0, crosschainFeePercent := -1
    , minimumCrosschainFee := 0, ataCreationFee := 0 } }

/-- A deterministic EVM signing context. -/
def exEvmCtx : EvmSignContext := { signerAddress := "0xSender".toList, nowEpochSeconds := 0 }

/-- A caller-provided (Mode B) facilitator header. -/
def exHdr : FacilitatorHeader :=
  { facilitatorName := "provided".toList, facilitatorId := "provided".toList
  , paymentHeader := .provided ("h".toList) }

/-- Solana chain state with the destination's token account absent. -/
def exChainNoAta : SolanaChain := { destinationAtaExists := false, mintDecimals := 6 }

/-- Solana chain state with the destination's token account present. -/
def exChainAta : SolanaChain := { destinationAtaExists := true, mintDecimals := 6 }

/-- A ranked facilitator that exposes a fee payer. -/
def exFacA : RankedFacilitator :=
  { facilitatorName := "FacA".toList, facilitatorId := "fa".toList
  , solanaFeePayer := some ("FEEPAYER_A".toList) }

/-- A ranked facilitator without a fee payer (skipped by the signing loop). -/
def exFacB : RankedFacilitator :=
  { facilitatorName := "FacB".toList, facilitatorId := "fb".toList, solanaFeePayer := none }

/-- The Solana envelope produced for a $1.00 same-chain payment to `"T"` with
facilitator A's fee payer when the destination account exists. -/
def exSolHeader : SolanaHeader :=
  { x402Version := 1, scheme := "exact".toList, network := "solana".toList
  , transaction :=
    { feePayer := "FEEPAYER_A".toList
    , instructions := [.computeUnitLimit 40000, .computeUnitPrice 1, .transferChecked 1000000 6]
    , amountAtomic := 1000000 }
  , crossChainMeta := none }

/-- The Solana envelope produced for the same payment when the destination
account does not yet exist (default fee payer). -/
def exSolHeaderNoAta : SolanaHeader :=
  { x402Version := 1, scheme := "exact".toList, network := "solana".toList
  , transaction :=
    { feePayer := PAYAI_FEE_PAYER
    , instructions := [.computeUnitLimit 40000, .computeUnitPrice 1,
        .createAssociatedTokenAccount, .transferChecked 1000000 6]
    , amountAtomic := 1000000 }
  , crossChainMeta := none }

/-- The fee record computed for a $0.20 payment under `exPrepCrossAta`. -/
def exFeesC4 : CalculatedFees :=
  { grossAmount := "0.200000".toList, processingFee := "0.010000".toList
  , ataFee := "0.400000".toList, totalFees := "0.410000".toList
  , netAmount := "0.000000".toList, processingFeePercent := 1/10
  , minimumFeeApplied := true }

/-- The fee record computed for the amount string `"10$"` under `exPrepSame`. -/
def exFeesTen : CalculatedFees :=
  { grossAmount := "10.000000".toList, processingFee := "0.000000".toList
  , ataFee := "0.000000".toList, totalFees := "0.000000".toList
  , netAmount := "10.000000".toList, processingFeePercent := 0
  , minimumFeeApplied := false }

/-- A 42-character hex-prefixed EVM address. -/
def exEvmAddress : List Char := '0' :: 'x' :: List.replicate 40 'a'

/-- A fully acknowledged constructor configuration. -/
def exCfgOk : UplinkConfigIn :=
  { apiKey := "key".toList, network := none
  , createAtaFeeAcceptance := some true, minimumCrosschainFeeAcceptance := some true }

/-- The EVM envelope produced by `exEvmCtx` for a $1.50 payment to `"W"`. -/
def exEvmHeader : EvmHeader :=
  { x402Version := 1, scheme := "exact".toList, network := "base".toList
  , authorization :=
    { fromAddr := "0xSender".toList, toAddr := "W".toList, value := 1500000
    , validAfter := 0, validBefore := 3600 } }

/-- The fee record computed for a $10 payment under `exPrepCross`. -/
def exFeesC3 : CalculatedFees :=
  { grossAmount := "10.000000".toList, processingFee := "0.010000".toList
  , ataFee := "0.000000".toList, totalFees := "0.010000".toList
  , netAmount := "9.990000".toList, processingFeePercent := 1/10
  , minimumFeeApplied := false }

/-- A settlement oracle: the first two facilitators fail with ordinary payment
failures, the third succeeds. -/
def exResp3 : ℕ → SettleResp := fun i =>
  if i = 0 then .failure ("f0".toList)
  else if i = 1 then .failure ("f1".toList)
  else .success ("tx3".toList)

/-! ### Character-class lemmas -/

theorem isWS_cases {c : Char} (h : isWS c = true) :
    c = ' ' ∨ c = '\t' ∨ c = '\n' ∨ c = '\r' := by
  simpa [isWS, Bool.or_eq_true, decide_eq_true_eq, or_assoc] using h

theorem ws_char_facts {c : Char} (h : isWS c = true) :
    isU c = false ∧ isS c = false ∧ isD c = false ∧ isC c = false
      ∧ (c != '$') = true ∧ isDigit c = false := by
  rcases isWS_cases h with h' | h' | h' | h' <;> subst h' <;> decide

theorem isWS_false_of_isDigit {c : Char} (h : isDigit c = true) : isWS c = false := by
  cases hws : isWS c
  · rfl
  · rcases isWS_cases hws with h' | h' | h' | h' <;> subst h' <;> exact absurd h (by decide)

theorem isU_cases {c : Char} (h : isU c = true) : c = 'U' ∨ c = 'u' := by
  simpa [isU, Bool.or_eq_true, decide_eq_true_eq] using h

theorem isU_false_of_isDigit {c : Char} (h : isDigit c = true) : isU c = false := by
  cases hu : isU c
  · rfl
  · rcases isU_cases hu with h' | h' <;> subst h' <;> exact absurd h (by decide)

theorem digit_not_special {c : Char} (h : isDigit c = true) :
    c ≠ '-' ∧ c ≠ '+' ∧ c ≠ '.' ∧ (c != '$') = true := by
  refine ⟨?_, ?_, ?_, ?_⟩
  · intro he; subst he; exact absurd h (by decide)
  · intro he; subst he; exact absurd h (by decide)
  · intro he; subst he; exact absurd h (by decide)
  · cases hd : (c != '$')
    · have : c = '$' := by simpa using hd
      subst this; exact absurd h (by decide)
    · rfl

/-! ### `trim` lemmas -/

theorem trimLeft_cons_ws {c : Char} {l : List Char} (h : isWS c = true) :
    trimLeft (c :: l) = trimLeft l := by
  simp [trimLeft, List.dropWhile_cons, h]

theorem trimLeft_cons_not_ws {c : Char} {l : List Char} (h : isWS c = false) :
    trimLeft (c :: l) = c :: l := by
  simp [trimLeft, List.dropWhile_cons, h]

theorem trimRight_cons_of_eq {c : Char} {l : List Char} (h : trimRight l = []) :
    trimRight (c :: l) = if isWS c then [] else [c] := by
  conv_lhs => rw [trimRight]
  rw [h]

theorem trimRight_cons_of_ne {c : Char} {l : List Char} (h : trimRight l ≠ []) :
    trimRight (c :: l) = c :: trimRight l := by
  conv_lhs => rw [trimRight]
  cases hr : trimRight l with
  | nil => exact absurd hr h
  | cons x xs => rfl

theorem trimRight_cons_not_ws {c : Char} {l : List Char} (h : isWS c = false) :
    trimRight (c :: l) = c :: trimRight l := by
  cases hr : trimRight l with
  | nil => rw [trimRight_cons_of_eq hr]; simp [h]
  | cons x xs => rw [trimRight_cons_of_ne (by rw [hr]; simp), hr]

theorem trim_cons_ws {c : Char} {l : List Char} (h : isWS c = true) :
    trim (c :: l) = trim l := by
  unfold trim
  cases hr : trimRight l with
  | nil => rw [trimRight_cons_of_eq hr, h]; simp
  | cons x xs =>
    rw [trimRight_cons_of_ne (by rw [hr]; simp), trimLeft_cons_ws h, hr]

theorem trimRight_eq_nil_iff {l : List Char} :
    trimRight l = [] ↔ ∀ c ∈ l, isWS c = true := by
  induction l with
  | nil => simp [trimRight]
  | cons c t ih =>
    cases hr : trimRight t with
    | nil =>
      rw [trimRight_cons_of_eq hr]
      have ht : ∀ c ∈ t, isWS c = true := ih.mp hr
      cases hc : isWS c
      · simp [hc, List.forall_mem_cons]
      · simpa [hc, List.forall_mem_cons] using ht
    | cons x xs =>
      rw [trimRight_cons_of_ne (by rw [hr]; simp)]
      have : ¬ (∀ a ∈ t, isWS a = true) := fun hall => by
        rw [ih.mpr hall] at hr; cases hr
      simp only [List.cons_ne_nil, false_iff]
      intro hall
      exact this fun a ha => hall a (List.mem_cons_of_mem _ ha)

theorem trimLeft_eq_nil_iff {l : List Char} :
    trimLeft l = [] ↔ ∀ c ∈ l, isWS c = true := by
  simp [trimLeft, List.dropWhile_eq_nil_iff]

theorem trimLeft_eq_self_of {l : List Char} (h : ∀ c ∈ l, isWS c = false) :
    trimLeft l = l := by
  cases l with
  | nil => rfl
  | cons c t => exact trimLeft_cons_not_ws (h c (List.mem_cons_self c t))

theorem trimRight_eq_self_of {l : List Char} (h : ∀ c ∈ l, isWS c = false) :
    trimRight l = l := by
  induction l with
  | nil => rfl
  | cons c t ih =>
    rw [trimRight_cons_not_ws (h c (List.mem_cons_self c t))]
    rw [ih fun a ha => h a (List.mem_cons_of_mem _ ha)]

theorem trim_eq_self_of {l : List Char} (h : ∀ c ∈ l, isWS c = false) :
    trim l = l := by
  unfold trim
  rw [trimRight_eq_self_of h, trimLeft_eq_self_of h]

theorem trimRight_append_of_ne {x y : List Char} (h : trimRight y ≠ []) :
    trimRight (x ++ y) = x ++ trimRight y := by
  induction x with
  | nil => simp
  | cons c x' ih =>
    rw [List.cons_append, trimRight_cons_of_ne (by rw [ih]; simp [h]), ih, List.cons_append]

theorem trimRight_append_ws {z w : List Char} (hw : ∀ c ∈ w, isWS c = true) :
    trimRight (z ++ w) = trimRight z := by
  induction z with
  | nil => simpa [trimRight] using trimRight_eq_nil_iff.mpr hw
  | cons c z' ih =>
    cases hr : trimRight (z' ++ w) with
    | nil =>
      rw [List.cons_append, trimRight_cons_of_eq hr, trimRight_cons_of_eq (by rw [← ih, hr])]
    | cons x xs =>
      rw [List.cons_append, trimRight_cons_of_ne (by rw [hr]; simp),
        trimRight_cons_of_ne (by rw [← ih, hr]; simp), ih]

theorem trimLeft_append (a b : List Char) :
    trimLeft (a ++ b) = if trimLeft a = [] then trimLeft b else trimLeft a ++ b := by
  induction a with
  | nil => simp [trimLeft]
  | cons c a' ih =>
    cases hc : isWS c with
    | true =>
      rw [List.cons_append, trimLeft_cons_ws hc, ih, trimLeft_cons_ws hc]
    | false =>
      rw [List.cons_append, trimLeft_cons_not_ws hc, trimLeft_cons_not_ws hc]
      simp

/-! ### `removeDollar` lemmas -/

theorem removeDollar_cons_ne {c : Char} {l : List Char} (h : (c != '$') = true) :
    removeDollar (c :: l) = c :: removeDollar l := by
  simp [removeDollar, List.filter_cons, h]

theorem removeDollar_cons_eq {l : List Char} : removeDollar ('$' :: l) = removeDollar l := by
  simp [removeDollar, List.filter_cons]

theorem removeDollar_append (a b : List Char) :
    removeDollar (a ++ b) = removeDollar a ++ removeDollar b := by
  simp [removeDollar, List.filter_append]

theorem removeDollar_eq_self_of {l : List Char} (h : ∀ c ∈ l, (c != '$') = true) :
    removeDollar l = l :=
  List.filter_eq_self.mpr h

/-! ### `removeU` lemmas -/

theorem usdcAt_false_head {c : Char} {t : List Char} (h : isU c = false) :
    usdcAt (c :: t) = false := by
  rcases t with _ | ⟨c2, _ | ⟨c3, _ | ⟨c4, t'⟩⟩⟩ <;> simp [usdcAt, h]

theorem usdcAt_false_snd {c1 d : Char} {t : List Char} (h : isS d = false) :
    usdcAt (c1 :: d :: t) = false := by
  rcases t with _ | ⟨c3, _ | ⟨c4, t'⟩⟩ <;> simp [usdcAt, h]

theorem usdcAt_false_thd {c1 c2 d : Char} {t : List Char} (h : isD d = false) :
    usdcAt (c1 :: c2 :: d :: t) = false := by
  rcases t with _ | ⟨c4, t'⟩ <;> simp [usdcAt, h]

theorem usdcAt_false_4th {c1 c2 c3 d : Char} {t : List Char} (h : isC d = false) :
    usdcAt (c1 :: c2 :: c3 :: d :: t) = false := by
  simp [usdcAt, h]

theorem removeU_nil : removeU [] = [] := rfl

theorem removeU_cons_false {c : Char} {l : List Char} (h : usdcAt (c :: l) = false) :
    removeU (c :: l) = c :: removeU l := by
  rcases l with _ | ⟨c2, _ | ⟨c3, _ | ⟨c4, t⟩⟩⟩
  · rfl
  · rfl
  · rfl
  · simp only [usdcAt] at h
    conv_lhs => rw [removeU]
    simp [h]

theorem removeU_cons_true {c1 c2 c3 c4 : Char} {t : List Char}
    (h : (isU c1 && isS c2 && isD c3 && isC c4) = true) :
    removeU (c1 :: c2 :: c3 :: c4 :: t) = removeU t := by
  conv_lhs => rw [removeU]
  simp [h]

theorem removeU_all_ws {w : List Char} (hw : ∀ c ∈ w, isWS c = true) : removeU w = w := by
  induction w with
  | nil => rfl
  | cons c t ih =>
    rw [removeU_cons_false (usdcAt_false_head (ws_char_facts (hw c (List.mem_cons_self c t))).1),
      ih fun a ha => hw a (List.mem_cons_of_mem _ ha)]

theorem removeU_append_ws_head (d : Char) (t : List Char) (hd : isWS d = true) :
    ∀ x : List Char, removeU (x ++ (d :: t)) = removeU x ++ removeU (d :: t)
  | [] => by simp [removeU_nil]
  | [a] => by
    have h2 : isS d = false := (ws_char_facts hd).2.1
    rw [List.cons_append, List.nil_append,
      removeU_cons_false (usdcAt_false_snd h2)]
    rfl
  | [a, b] => by
    have h2 : isS d = false := (ws_char_facts hd).2.1
    have h3 : isD d = false := (ws_char_facts hd).2.2.1
    rw [show ([a, b] ++ (d :: t)) = a :: b :: d :: t by rfl,
      removeU_cons_false (usdcAt_false_thd h3),
      removeU_cons_false (usdcAt_false_snd h2)]
    rfl
  | [a, b, c] => by
    have h2 : isS d = false := (ws_char_facts hd).2.1
    have h3 : isD d = false := (ws_char_facts hd).2.2.1
    have h4 : isC d = false := (ws_char_facts hd).2.2.2.1
    rw [show ([a, b, c] ++ (d :: t)) = a :: b :: c :: d :: t by rfl,
      removeU_cons_false (usdcAt_false_4th h4),
      removeU_cons_false (usdcAt_false_thd h3),
      removeU_cons_false (usdcAt_false_snd h2)]
    rfl
  | a :: b :: c :: e :: rest => by
    by_cases h : (isU a && isS b && isD c && isC e) = true
    · rw [show ((a :: b :: c :: e :: rest) ++ (d :: t)) = a :: b :: c :: e :: (rest ++ (d :: t))
        by simp,
        removeU_cons_true h, removeU_cons_true h,
        removeU_append_ws_head d t hd rest]
    · have hb : (isU a && isS b && isD c && isC e) = false := by
        cases hcc : (isU a && isS b && isD c && isC e)
        · rfl
        · exact absurd hcc h
      have hx : usdcAt (a :: b :: c :: e :: (rest ++ (d :: t))) = false := by
        simp only [usdcAt]; exact hb
      have hx' : usdcAt (a :: b :: c :: e :: rest) = false := by
        simp only [usdcAt]; exact hb
      rw [show ((a :: b :: c :: e :: rest) ++ (d :: t)) = a :: ((b :: c :: e :: rest) ++ (d :: t))
        by simp,
        removeU_cons_false (by rw [show (b :: c :: e :: rest) ++ (d :: t)
          = b :: c :: e :: (rest ++ (d :: t)) by simp]; exact hx),
        removeU_cons_false hx',
        removeU_append_ws_head d t hd (b :: c :: e :: rest)]
      simp
termination_by x => x.length

theorem removeU_append_all_ws {x w : List Char} (hw : ∀ c ∈ w, isWS c = true) :
    removeU (x ++ w) = removeU x ++ w := by
  cases w with
  | nil => simp
  | cons d t =>
    rw [removeU_append_ws_head d t (hw d (List.mem_cons_self d t)) x, removeU_all_ws hw]

/-! ### Normalization-pipeline lemmas -/

theorem strip_trimLeft_congr (u : List Char) :
    trim (removeU (removeDollar u)) = trim (removeU (removeDollar (trimLeft u))) := by
  induction u with
  | nil => rfl
  | cons c u' ih =>
    cases hc : isWS c with
    | false => rw [trimLeft_cons_not_ws hc]
    | true =>
      have f := ws_char_facts hc
      rw [trimLeft_cons_ws hc, removeDollar_cons_ne f.2.2.2.2.1,
        removeU_cons_false (usdcAt_false_head f.1), trim_cons_ws hc, ih]

theorem exists_trimRight_decomp (s : List Char) :
    ∃ w, s = trimRight s ++ w ∧ ∀ c ∈ w, isWS c = true := by
  induction s with
  | nil => exact ⟨[], rfl, by simp⟩
  | cons c t ih =>
    obtain ⟨w, hw, hws⟩ := ih
    cases hr : trimRight t with
    | nil =>
      cases hc : isWS c with
      | true =>
        refine ⟨c :: t, ?_, ?_⟩
        · rw [trimRight_cons_of_eq hr]; simp [hc]
        · intro a ha
          rcases List.mem_cons.mp ha with rfl | ha'
          · exact hc
          · exact trimRight_eq_nil_iff.mp hr a ha'
      | false =>
        refine ⟨t, ?_, fun a ha => trimRight_eq_nil_iff.mp hr a ha⟩
        rw [trimRight_cons_of_eq hr]; simp [hc]
    | cons x xs =>
      refine ⟨w, ?_, hws⟩
      rw [trimRight_cons_of_ne (by rw [hr]; simp)]
      conv_lhs => rw [hw]
      simp

theorem strip_trimRight_congr (s : List Char) :
    trim (removeU (removeDollar (trimLeft s)))
      = trim (removeU (removeDollar (trimLeft (trimRight s)))) := by
  obtain ⟨w, hs, hws⟩ := exists_trimRight_decomp s
  conv_lhs => rw [hs]
  rw [trimLeft_append]
  by_cases h0 : trimLeft (trimRight s) = []
  · rw [if_pos h0, h0, trimLeft_eq_nil_iff.mpr hws]
  · rw [if_neg h0, removeDollar_append,
      removeDollar_eq_self_of (fun c hc => (ws_char_facts (hws c hc)).2.2.2.2.1),
      removeU_append_all_ws hws]
    unfold trim
    rw [trimRight_append_ws hws]

/-- The normalized string computed by `_parseAmount` is unchanged by a leading
dollar sign. -/
theorem normalized_dollar_cons (s : List Char) :
    trim (removeU (removeDollar (trim ('$' :: s))))
      = trim (removeU (removeDollar (trim s))) := by
  have h1 : trim ('$' :: s) = '$' :: trimRight s := by
    unfold trim
    rw [trimRight_cons_not_ws (by decide), trimLeft_cons_not_ws (by decide)]
  rw [h1, removeDollar_cons_eq, strip_trimLeft_congr (trimRight s)]
  rfl

/-- The normalized string computed by `_parseAmount` is unchanged by a trailing
`" USDC"` label. -/
theorem normalized_usdc_append (s : List Char) :
    trim (removeU (removeDollar (trim (s ++ (" USDC".toList)))))
      = trim (removeU (removeDollar (trim s))) := by
  have h1 : trim (s ++ (" USDC".toList)) = trimLeft (s ++ (" USDC".toList)) := by
    unfold trim
    rw [trimRight_append_of_ne (by decide),
      show trimRight (" USDC".toList) = " USDC".toList from by decide]
  rw [h1, trimLeft_append]
  by_cases h0 : trimLeft s = []
  · rw [if_pos h0]
    have hsws : ∀ c ∈ s, isWS c = true := trimLeft_eq_nil_iff.mp h0
    have h2 : trim s = [] := by
      unfold trim
      rw [trimRight_eq_nil_iff.mpr hsws]
      rfl
    rw [h2]
    decide
  · rw [if_neg h0]
    have h2 : removeDollar (trimLeft s ++ (" USDC".toList))
        = removeDollar (trimLeft s) ++ (" USDC".toList) := by
      rw [removeDollar_append,
        show removeDollar (" USDC".toList) = " USDC".toList from by decide]
    rw [h2, show (" USDC".toList) = ' ' :: ("USDC".toList) from by decide,
      removeU_append_ws_head ' ' ("USDC".toList) (by decide) (removeDollar (trimLeft s)),
      show removeU (' ' :: ("USDC".toList)) = [' '] from by decide]
    have h3 : trim (removeU (removeDollar (trimLeft s)) ++ [' '])
        = trim (removeU (removeDollar (trimLeft s))) := by
      unfold trim
      rw [trimRight_append_ws (by intro c hc; simp at hc; subst hc; rfl)]
    rw [h3, strip_trimRight_congr s]
    rfl

/-! ### Decimal rendering lemmas -/

theorem isDigit_digitChar (d : ℕ) : isDigit (digitChar d) = true := by
  unfold digitChar
  repeat' split
  all_goals decide

theorem digToNat_digitChar {d : ℕ} (h : d < 10) : digToNat (digitChar d) = d := by
  interval_cases d <;> decide

theorem natToCharsAux_congr :
    ∀ f g n : ℕ, n < f → n < g → natToCharsAux f n = natToCharsAux g n
  | 0, _, n, hf, _ => absurd hf (Nat.not_lt_zero n)
  | _ + 1, 0, n, _, hg => absurd hg (Nat.not_lt_zero n)
  | f + 1, g + 1, n, hf, hg => by
    unfold natToCharsAux
    by_cases h : n < 10
    · simp [h]
    · simp only [h, if_false]
      have hdiv : n / 10 < n := Nat.div_lt_self (by omega) (by omega)
      rw [natToCharsAux_congr f g (n / 10) (by omega) (by omega)]

theorem natToChars_eq_aux {fuel n : ℕ} (h : n < fuel) :
    natToCharsAux fuel n = natToChars n :=
  natToCharsAux_congr fuel (n + 1) n h (Nat.lt_succ_self n)

theorem natToChars_unfold (n : ℕ) :
    natToChars n
      = if n < 10 then [digitChar n] else natToChars (n / 10) ++ [digitChar (n % 10)] := by
  conv_lhs => rw [natToChars]
  unfold natToCharsAux
  by_cases h : n < 10
  · simp [h]
  · simp only [h, if_false]
    rw [natToChars_eq_aux (lt_of_lt_of_le (Nat.div_lt_self (by omega) (by omega)) (Nat.le_refl n))]

theorem natToChars_all_digit (n : ℕ) : ∀ c ∈ natToChars n, isDigit c = true := by
  induction n using Nat.strong_induction_on with
  | _ n ih =>
    rw [natToChars_unfold n]
    by_cases h : n < 10
    · simp only [h, if_true, List.mem_singleton]
      intro c hc; subst hc; exact isDigit_digitChar n
    · simp only [h, if_false]
      intro c hc
      rcases List.mem_append.mp hc with hc | hc
      · exact ih (n / 10) (Nat.div_lt_self (by omega) (by omega)) c hc
      · rw [List.mem_singleton.mp hc]; exact isDigit_digitChar _

theorem natToChars_ne_nil (n : ℕ) : natToChars n ≠ [] := by
  rw [natToChars_unfold n]
  by_cases h : n < 10 <;> simp [h]

theorem digitsToNat_append_singleton (l : List Char) (c : Char) :
    digitsToNat (l ++ [c]) = 10 * digitsToNat l + digToNat c := by
  simp [digitsToNat, List.foldl_append]

theorem digitsToNat_natToChars (n : ℕ) : digitsToNat (natToChars n) = n := by
  induction n using Nat.strong_induction_on with
  | _ n ih =>
    rw [natToChars_unfold n]
    by_cases h : n < 10
    · simp only [h, if_true]
      simp [digitsToNat, digToNat_digitChar h]
    · simp only [h, if_false]
      rw [digitsToNat_append_singleton, ih (n / 10) (Nat.div_lt_self (by omega) (by omega)),
        digToNat_digitChar (Nat.mod_lt n (by omega))]
      omega

theorem length_natToChars_le :
    ∀ n k : ℕ, 1 ≤ k → n < 10 ^ k → (natToChars n).length ≤ k := by
  intro n
  induction n using Nat.strong_induction_on with
  | _ n ih =>
    intro k hk h
    rw [natToChars_unfold n]
    by_cases h10 : n < 10
    · simpa [h10] using hk
    · simp only [h10, if_false, List.length_append, List.length_singleton]
      have hk2 : 2 ≤ k := by
        rcases Nat.lt_or_ge k 2 with hlt | hge
        · exfalso
          have : k = 1 := by omega
          subst this
          simp at h
          omega
        · exact hge
      have hdivlt : n / 10 < 10 ^ (k - 1) := by
        rw [Nat.div_lt_iff_lt_mul (by omega : 0 < 10)]
        calc n < 10 ^ k := h
          _ = 10 ^ (k - 1) * 10 := by rw [← pow_succ]; congr 1; omega
      have hlen := ih (n / 10) (Nat.div_lt_self (by omega) (by omega)) (k - 1) (by omega) hdivlt
      omega

theorem length_zeroPad {d : ℕ} {l : List Char} (h : l.length ≤ d) :
    (zeroPad d l).length = d := by
  simp [zeroPad]
  omega

theorem digitsToNat_replicate_zero (m : ℕ) (l : List Char) :
    digitsToNat (List.replicate m '0' ++ l) = digitsToNat l := by
  induction m with
  | zero => simp
  | succ m ih =>
    rw [List.replicate_succ, List.cons_append]
    have h0 : digitsToNat ('0' :: (List.replicate m '0' ++ l))
        = digitsToNat (List.replicate m '0' ++ l) := by
      simp [digitsToNat, List.foldl_cons, digToNat]
    rw [h0, ih]

theorem digitsToNat_zeroPad (d : ℕ) (l : List Char) :
    digitsToNat (zeroPad d l) = digitsToNat l :=
  digitsToNat_replicate_zero _ l

theorem zeroPad_all_digit {d : ℕ} {l : List Char} (h : ∀ c ∈ l, isDigit c = true) :
    ∀ c ∈ zeroPad d l, isDigit c = true := by
  intro c hc
  rcases List.mem_append.mp hc with hc | hc
  · rw [List.eq_of_mem_replicate hc]; decide
  · exact h c hc

/-! ### `takeWhile` / `dropWhile` lemmas -/

theorem takeWhile_all {p : Char → Bool} {l : List Char} (h : ∀ c ∈ l, p c = true) :
    l.takeWhile p = l := by
  induction l with
  | nil => rfl
  | cons c t ih =>
    rw [List.takeWhile_cons, h c (List.mem_cons_self c t),
      ih fun a ha => h a (List.mem_cons_of_mem _ ha)]
    simp

theorem dropWhile_all {p : Char → Bool} {l : List Char} (h : ∀ c ∈ l, p c = true) :
    l.dropWhile p = [] := by
  induction l with
  | nil => rfl
  | cons c t ih =>
    rw [List.dropWhile_cons, h c (List.mem_cons_self c t)]
    exact ih fun a ha => h a (List.mem_cons_of_mem _ ha)

theorem takeWhile_append_stop {p : Char → Bool} {l r : List Char} {b : Char}
    (hl : ∀ c ∈ l, p c = true) (hb : p b = false) :
    (l ++ b :: r).takeWhile p = l := by
  induction l with
  | nil => simp [List.takeWhile_cons, hb]
  | cons c t ih =>
    rw [List.cons_append, List.takeWhile_cons, hl c (List.mem_cons_self c t),
      ih fun a ha => hl a (List.mem_cons_of_mem _ ha)]
    simp

theorem dropWhile_append_stop {p : Char → Bool} {l r : List Char} {b : Char}
    (hl : ∀ c ∈ l, p c = true) (hb : p b = false) :
    (l ++ b :: r).dropWhile p = b :: r := by
  induction l with
  | nil => simp [List.dropWhile_cons, hb]
  | cons c t ih =>
    rw [List.cons_append, List.dropWhile_cons, hl c (List.mem_cons_self c t)]
    exact ih fun a ha => hl a (List.mem_cons_of_mem _ ha)

/-! ### `parseFloat` on rendered decimals -/

theorem parseAfterSign_shape (sgn : ℚ) (c0 : Char) (ip' fr : List Char)
    (h0 : isDigit c0 = true) (hip : ∀ c ∈ ip', isDigit c = true)
    (hfr : ∀ c ∈ fr, isDigit c = true) :
    parseAfterSign sgn (c0 :: (ip' ++ '.' :: fr))
      = some (sgn * ((digitsToNat (c0 :: ip') : ℚ) + (digitsToNat fr : ℚ) / 10 ^ fr.length)) := by
  have hipall : ∀ c ∈ c0 :: ip', isDigit c = true := by
    intro a ha
    rcases List.mem_cons.mp ha with rfl | ha'
    · exact h0
    · exact hip a ha'
  have e2 : (c0 :: (ip' ++ '.' :: fr)).takeWhile isDigit = c0 :: ip' := by
    rw [← List.cons_append]
    exact takeWhile_append_stop hipall (by decide)
  have e3 : (c0 :: (ip' ++ '.' :: fr)).dropWhile isDigit = '.' :: fr := by
    rw [← List.cons_append]
    exact dropWhile_append_stop hipall (by decide)
  have e4 : fr.takeWhile isDigit = fr := takeWhile_all hfr
  have e5 : fr.dropWhile isDigit = [] := dropWhile_all hfr
  unfold parseAfterSign
  simp only [e2, e3, List.head?_cons, List.tail_cons, e4, e5]
  have hexp : expPart [] = 0 := by decide
  simp [hexp]

theorem parseFloat_shape (c0 : Char) (ip' fr : List Char)
    (h0 : isDigit c0 = true) (hip : ∀ c ∈ ip', isDigit c = true)
    (hfr : ∀ c ∈ fr, isDigit c = true) :
    parseFloat (c0 :: (ip' ++ '.' :: fr))
      = some ((digitsToNat (c0 :: ip') : ℚ) + (digitsToNat fr : ℚ) / 10 ^ fr.length) := by
  have hws0 : isWS c0 = false := isWS_false_of_isDigit h0
  have hsp := digit_not_special h0
  have e1 : (c0 :: (ip' ++ '.' :: fr)).dropWhile isWS = c0 :: (ip' ++ '.' :: fr) := by
    rw [List.dropWhile_cons, hws0]
    simp
  unfold parseFloat
  simp only [e1, List.head?_cons]
  rw [if_neg (fun h => hsp.1 (Option.some.inj h)),
    if_neg (fun h => hsp.2.1 (Option.some.inj h)),
    parseAfterSign_shape 1 c0 ip' fr h0 hip hfr]
  norm_num

theorem parseFloat_shape_neg (c0 : Char) (ip' fr : List Char)
    (h0 : isDigit c0 = true) (hip : ∀ c ∈ ip', isDigit c = true)
    (hfr : ∀ c ∈ fr, isDigit c = true) :
    parseFloat ('-' :: c0 :: (ip' ++ '.' :: fr))
      = some (-((digitsToNat (c0 :: ip') : ℚ) + (digitsToNat fr : ℚ) / 10 ^ fr.length)) := by
  have e1 : ('-' :: c0 :: (ip' ++ '.' :: fr)).dropWhile isWS
      = '-' :: c0 :: (ip' ++ '.' :: fr) := by
    simp [List.dropWhile_cons, show isWS '-' = false from by decide]
  unfold parseFloat
  simp only [e1, List.head?_cons, List.tail_cons, if_true]
  rw [parseAfterSign_shape (-1) c0 ip' fr h0 hip hfr]
  norm_num

theorem removeU_eq_self_of {l : List Char} (h : ∀ c ∈ l, isU c = false) :
    removeU l = l := by
  induction l with
  | nil => rfl
  | cons c t ih =>
    rw [removeU_cons_false (usdcAt_false_head (h c (List.mem_cons_self c t))),
      ih fun a ha => h a (List.mem_cons_of_mem _ ha)]

theorem toFixedStr_chars (d : ℕ) (q : ℚ) :
    ∀ c ∈ toFixedStr d q, c = '-' ∨ c = '.' ∨ isDigit c = true := by
  intro c hc
  unfold toFixedStr at hc
  rcases List.mem_append.mp hc with hc | hc
  · rcases List.mem_append.mp hc with hc | hc
    · by_cases hq : q < 0
      · rw [if_pos hq] at hc
        left
        exact List.mem_singleton.mp hc
      · rw [if_neg hq] at hc
        cases hc
    · right; right
      exact natToChars_all_digit _ c hc
  · rcases List.mem_cons.mp hc with rfl | hc
    · right; left; rfl
    · right; right
      exact zeroPad_all_digit (natToChars_all_digit _) c hc

theorem strip_toFixedStr (d : ℕ) (q : ℚ) :
    trim (removeU (removeDollar (trim (toFixedStr d q)))) = toFixedStr d q := by
  have hch := toFixedStr_chars d q
  have hnws : ∀ c ∈ toFixedStr d q, isWS c = false := by
    intro c hc
    rcases hch c hc with rfl | rfl | h
    · decide
    · decide
    · exact isWS_false_of_isDigit h
  have hnd : ∀ c ∈ toFixedStr d q, (c != '$') = true := by
    intro c hc
    rcases hch c hc with rfl | rfl | h
    · decide
    · decide
    · exact (digit_not_special h).2.2.2
  have hnu : ∀ c ∈ toFixedStr d q, isU c = false := by
    intro c hc
    rcases hch c hc with rfl | rfl | h
    · decide
    · decide
    · exact isU_false_of_isDigit h
  rw [trim_eq_self_of hnws, removeDollar_eq_self_of hnd, removeU_eq_self_of hnu,
    trim_eq_self_of hnws]

theorem parseFloat_toFixedStr {d : ℕ} (hd : 1 ≤ d) (q : ℚ) :
    parseFloat (toFixedStr d q) = some (toFixedVal d q) := by
  set n := toFixedScaled d q with hn
  obtain ⟨c0, ip', hsplit⟩ : ∃ c0 ip', natToChars (n / 10 ^ d) = c0 :: ip' := by
    cases hcc : natToChars (n / 10 ^ d) with
    | nil => exact absurd hcc (natToChars_ne_nil _)
    | cons a b => exact ⟨a, b, rfl⟩
  have hdigs := natToChars_all_digit (n / 10 ^ d)
  rw [hsplit] at hdigs
  have h0 : isDigit c0 = true := hdigs c0 (List.mem_cons_self _ _)
  have hip : ∀ c ∈ ip', isDigit c = true := fun c hc => hdigs c (List.mem_cons_of_mem _ hc)
  have hfr : ∀ c ∈ zeroPad d (natToChars (n % 10 ^ d)), isDigit c = true :=
    zeroPad_all_digit (natToChars_all_digit _)
  have hblt : n % 10 ^ d < 10 ^ d := Nat.mod_lt _ (by positivity)
  have hlen : (zeroPad d (natToChars (n % 10 ^ d))).length = d :=
    length_zeroPad (length_natToChars_le _ _ hd hblt)
  have hcast : ((10 : ℚ) ^ d) * ((n / 10 ^ d : ℕ) : ℚ) + ((n % 10 ^ d : ℕ) : ℚ) = (n : ℚ) := by
    exact_mod_cast congrArg (fun m : ℕ => (m : ℚ)) (Nat.div_add_mod n (10 ^ d))
  have hval : (digitsToNat (c0 :: ip') : ℚ)
      + (digitsToNat (zeroPad d (natToChars (n % 10 ^ d))) : ℚ)
        / 10 ^ (zeroPad d (natToChars (n % 10 ^ d))).length
      = (n : ℚ) / 10 ^ d := by
    rw [← hsplit, digitsToNat_natToChars, digitsToNat_zeroPad, digitsToNat_natToChars, hlen,
      ← hcast]
    have h10 : ((10 : ℚ) ^ d) ≠ 0 := by positivity
    field_simp
    ring
  by_cases hq : q < 0
  · have hts : toFixedStr d q
        = '-' :: c0 :: (ip' ++ '.' :: zeroPad d (natToChars (n % 10 ^ d))) := by
      simp only [toFixedStr]
      rw [← hn, if_pos hq, hsplit]
      simp
    rw [hts, parseFloat_shape_neg c0 ip' _ h0 hip hfr, hval]
    unfold toFixedVal
    rw [← hn, if_pos hq]
    congr 1
    ring
  · have hts : toFixedStr d q
        = c0 :: (ip' ++ '.' :: zeroPad d (natToChars (n % 10 ^ d))) := by
      simp only [toFixedStr]
      rw [← hn, if_neg hq, hsplit]
      simp
    rw [hts, parseFloat_shape c0 ip' _ h0 hip hfr, hval]
    unfold toFixedVal
    rw [← hn, if_neg hq]
    congr 1
    ring

theorem toFixedScaled_toFixedVal (d : ℕ) (q : ℚ) :
    toFixedScaled d (toFixedVal d q) = toFixedScaled d q := by
  have hpow : (0 : ℚ) < 10 ^ d := by positivity
  have habs : |toFixedVal d q| = (toFixedScaled d q : ℚ) / 10 ^ d := by
    unfold toFixedVal
    by_cases hq : q < 0
    · rw [if_pos hq]
      rw [abs_div, abs_of_pos hpow]
      congr 1
      rw [abs_mul]
      simp
    · rw [if_neg hq]
      rw [abs_div, abs_of_pos hpow]
      congr 1
      rw [abs_mul]
      simp
  conv_lhs => unfold toFixedScaled
  rw [habs, div_mul_cancel₀ _ (ne_of_gt hpow)]
  have hfl : ⌊(toFixedScaled d q : ℚ) + 1 / 2⌋ = (toFixedScaled d q : ℤ) := by
    rw [Int.floor_eq_iff]
    constructor
    · push_cast; linarith
    · push_cast; linarith
  rw [hfl]
  simp

theorem toFixedVal_nonneg_of {d : ℕ} {q : ℚ} (hq : ¬ q < 0) : ¬ toFixedVal d q < 0 := by
  unfold toFixedVal
  rw [if_neg hq]
  have : (0:ℚ) ≤ 1 * (toFixedScaled d q : ℚ) / 10 ^ d := by positivity
  linarith

theorem toFixedVal_neg_of {d : ℕ} {q : ℚ} (hq : q < 0) (hn : toFixedScaled d q ≠ 0) :
    toFixedVal d q < 0 := by
  unfold toFixedVal
  rw [if_pos hq]
  have hpos : (0:ℚ) < (toFixedScaled d q : ℚ) := by
    exact_mod_cast Nat.pos_of_ne_zero hn
  have hpow : (0 : ℚ) < 10 ^ d := by positivity
  have : (-1 : ℚ) * (toFixedScaled d q : ℚ) < 0 := by linarith
  exact div_neg_of_neg_of_pos this hpow

theorem toFixedStr_toFixedVal {d : ℕ} (q : ℚ) (h : ¬(q < 0 ∧ toFixedScaled d q = 0)) :
    toFixedStr d (toFixedVal d q) = toFixedStr d q := by
  have hs := toFixedScaled_toFixedVal d q
  have hsign : (toFixedVal d q < 0) = (q < 0) := by
    by_cases hq : q < 0
    · have hn0 : toFixedScaled d q ≠ 0 := fun h0 => h ⟨hq, h0⟩
      simp [hq, toFixedVal_neg_of hq hn0]
    · simp [hq, toFixedVal_nonneg_of hq]
  unfold toFixedStr
  rw [hs]
  simp only [hsign]

/-! ### `_parseAmount` lemmas -/

theorem parseAmount_toOption_congr {s s' : List Char}
    (h : trim (removeU (removeDollar (trim s))) = trim (removeU (removeDollar (trim s')))) :
    (_parseAmount s).toOption = (_parseAmount s').toOption := by
  unfold _parseAmount
  simp only [h]
  cases hp : parseFloat (trim (removeU (removeDollar (trim s')))) <;>
    simp [hp, Except.toOption]

theorem parseAmount_error_iff (s : List Char) :
    (∃ e, _parseAmount s = .error e)
      ↔ parseFloat (trim (removeU (removeDollar (trim s)))) = none := by
  unfold _parseAmount
  cases hp : parseFloat (trim (removeU (removeDollar (trim s)))) with
  | none => simp [hp]
  | some q => simp [hp]

theorem parseAmount_error_shape {s : List Char} {e : UErr}
    (h : _parseAmount s = .error e) : e = .invalidFormat s := by
  unfold _parseAmount at h
  cases hp : parseFloat (trim (removeU (removeDollar (trim s)))) with
  | none =>
    simp only [hp] at h
    exact (Except.error.inj h).symm
  | some q =>
    simp only [hp] at h
    cases h

theorem parseAmount_idem {s v : List Char} (h : _parseAmount s = .ok v)
    (hne : v ≠ "-0.00".toList) : _parseAmount v = .ok v := by
  unfold _parseAmount at h
  cases hp : parseFloat (trim (removeU (removeDollar (trim s)))) with
  | none =>
    simp only [hp] at h
    cases h
  | some q =>
    simp only [hp] at h
    have hv : v = toFixedStr 2 q := (Except.ok.inj h).symm
    subst hv
    unfold _parseAmount
    rw [strip_toFixedStr 2 q]
    simp only [parseFloat_toFixedStr (by norm_num : (1:ℕ) ≤ 2) q]
    rw [toFixedStr_toFixedVal q ?side]
    case side =>
      rintro ⟨hq, h0⟩
      apply hne
      simp only [toFixedStr, h0, if_pos hq]
      decide

/-! ### `parseFloat` rejects a leading dollar sign -/

theorem parseAfterSign_dollar (sgn : ℚ) (t : List Char) :
    parseAfterSign sgn ('$' :: t) = none := by
  unfold parseAfterSign
  rw [List.takeWhile_cons, List.dropWhile_cons,
    show isDigit '$' = false from by decide]
  simp only [Bool.false_eq_true, if_false, List.head?_cons]
  rw [if_neg (fun hh => absurd (Option.some.inj hh) (by decide))]
  simp

theorem parseFloat_dollar_head {s : List Char} (h : (s.dropWhile isWS).head? = some '$') :
    parseFloat s = none := by
  obtain ⟨t, ht⟩ : ∃ t, s.dropWhile isWS = '$' :: t := by
    cases hc : s.dropWhile isWS with
    | nil => rw [hc] at h; cases h
    | cons a b =>
      rw [hc, List.head?_cons] at h
      exact ⟨b, by rw [Option.some.inj h]⟩
  unfold parseFloat
  simp only [ht, List.head?_cons]
  rw [if_neg (fun hh => absurd (Option.some.inj hh) (by decide)),
    if_neg (fun hh => absurd (Option.some.inj hh) (by decide)),
    parseAfterSign_dollar]

/-! ### Unfolding equations for `calculateFees` and `pay` -/

theorem calculateFees_none {prep : PreparePaymentResponse} {amt : List Char}
    (hp : parseFloat amt = none) : calculateFees prep amt = .error .invalidAmount := by
  unfold calculateFees
  simp only [hp]

theorem calculateFees_nonpos {prep : PreparePaymentResponse} {amt : List Char} {g : ℚ}
    (hp : parseFloat amt = some g) (hg : g ≤ 0) :
    calculateFees prep amt = .error .invalidAmount := by
  unfold calculateFees
  simp only [hp]
  rw [if_pos hg]

theorem calculateFees_ok_eq {prep : PreparePaymentResponse} {amt : List Char} {g : ℚ}
    (hp : parseFloat amt = some g) (hg : 0 < g) :
    calculateFees prep amt =
      (let feePercent := if prep.isCrossChain then prep.feeConfig.crosschainFeePercent
        else prep.feeConfig.samechainFeePercent
       let pctFee := g * feePercent / 100
       let minApplies := prep.isCrossChain
         && decide (0 < prep.feeConfig.minimumCrosschainFee)
         && decide (pctFee < prep.feeConfig.minimumCrosschainFee)
       let processingFee := if minApplies then prep.feeConfig.minimumCrosschainFee else pctFee
       let ataFee := if prep.ataCheck.needsCreation then prep.feeConfig.ataCreationFee else 0
       .ok { grossAmount := toFixedStr 6 g
           , processingFee := toFixedStr 6 processingFee
           , ataFee := toFixedStr 6 ataFee
           , totalFees := toFixedStr 6 (processingFee + ataFee)
           , netAmount := toFixedStr 6 (max 0 (g - (processingFee + ataFee)))
           , processingFeePercent := feePercent
           , minimumFeeApplied := minApplies }) := by
  unfold calculateFees
  simp only [hp]
  rw [if_neg (not_le.mpr hg)]

theorem pay_of_calculateFees_error {prep : PreparePaymentResponse} {amt : List Char} {e : UErr}
    (hc : calculateFees prep amt = .error e)
    (signResult : Except UErr (List FacilitatorHeader)) (resp : ℕ → SettleResp) :
    pay prep amt signResult resp = .error e := by
  unfold pay
  simp only [hc]

theorem pay_of_calculateFees_ok {prep : PreparePaymentResponse} {amt : List Char}
    {fees : CalculatedFees} (hc : calculateFees prep amt = .ok fees)
    (signResult : Except UErr (List FacilitatorHeader)) (resp : ℕ → SettleResp) :
    pay prep amt signResult resp =
      (if ltOpt (parseFloat fees.grossAmount) (parseFloat fees.totalFees) then
        .error (.insufficientAmount fees.processingFee
          (if gt0Opt (parseFloat fees.ataFee) then some fees.ataFee else none)
          (toFixedStr 2 ((parseFloat fees.totalFees).getD 0 + 1 / 100)))
      else match signResult with
        | .error e => .error e
        | .ok facilitatorHeaders => (settleLoop resp 0 facilitatorHeaders none).2) := by
  unfold pay
  simp only [hc]

/-! ### Failover-loop lemmas -/

theorem settleLoop_nil (resp : ℕ → SettleResp) (i : ℕ) (last : Option UErr) :
    settleLoop resp i [] last
      = ([], .error (last.getD
          (.networkFailed ("Payment failed with all facilitators".toList)))) := rfl

theorem settleLoop_success {resp : ℕ → SettleResp} {i : ℕ} {tx : List Char}
    (h : resp i = .success tx) (hd : FacilitatorHeader) (rest : List FacilitatorHeader)
    (last : Option UErr) : settleLoop resp i (hd :: rest) last = ([i], .ok tx) := by
  unfold settleLoop
  simp only [h]

theorem settleLoop_auth {resp : ℕ → SettleResp} {i : ℕ}
    (h : resp i = .http401) (hd : FacilitatorHeader) (rest : List FacilitatorHeader)
    (last : Option UErr) :
    settleLoop resp i (hd :: rest) last = ([i], .error .authenticationFailed) := by
  unfold settleLoop
  simp only [h]

theorem settleLoop_feeMismatch {resp : ℕ → SettleResp} {i : ℕ} {r : List Char}
    (h : resp i = .feeMismatch r) (hd : FacilitatorHeader) (rest : List FacilitatorHeader)
    (last : Option UErr) :
    settleLoop resp i (hd :: rest) last = ([i], .error (.feeMismatchFailed r)) := by
  unfold settleLoop
  simp only [h]

theorem settleLoop_failure {resp : ℕ → SettleResp} {i : ℕ} {r : List Char}
    (h : resp i = .failure r) (hd : FacilitatorHeader) (rest : List FacilitatorHeader)
    (last : Option UErr) :
    settleLoop resp i (hd :: rest) last =
      ((i :: (settleLoop resp (i + 1) rest (some (.paymentFailed r))).1),
        (settleLoop resp (i + 1) rest (some (.paymentFailed r))).2) := by
  conv_lhs => rw [settleLoop]
  simp only [h]

theorem settleLoop_netError {resp : ℕ → SettleResp} {i : ℕ} {m : List Char}
    (h : resp i = .netError m) (hd : FacilitatorHeader) (rest : List FacilitatorHeader)
    (last : Option UErr) :
    settleLoop resp i (hd :: rest) last =
      ((i :: (settleLoop resp (i + 1) rest (some (.networkFailed m))).1),
        (settleLoop resp (i + 1) rest (some (.networkFailed m))).2) := by
  conv_lhs => rw [settleLoop]
  simp only [h]

theorem settleLoop_attempts (resp : ℕ → SettleResp) :
    ∀ (hs : List FacilitatorHeader) (i : ℕ) (last : Option UErr),
      ∃ m, m ≤ hs.length ∧ (settleLoop resp i hs last).1 = List.range' i m := by
  intro hs
  induction hs with
  | nil => exact fun i last => ⟨0, by simp, rfl⟩
  | cons hd rest ih =>
    intro i last
    cases hr : resp i with
    | success tx => exact ⟨1, by simp, by rw [settleLoop_success hr]; rfl⟩
    | http401 => exact ⟨1, by simp, by rw [settleLoop_auth hr]; rfl⟩
    | feeMismatch r => exact ⟨1, by simp, by rw [settleLoop_feeMismatch hr]; rfl⟩
    | failure r =>
      obtain ⟨m, hm, ha⟩ := ih (i + 1) (some (.paymentFailed r))
      exact ⟨m + 1, by simpa using hm, by rw [settleLoop_failure hr]; simp [ha, List.range']⟩
    | netError msg =>
      obtain ⟨m, hm, ha⟩ := ih (i + 1) (some (.networkFailed msg))
      exact ⟨m + 1, by simpa using hm, by rw [settleLoop_netError hr]; simp [ha, List.range']⟩

theorem range'_one (i : ℕ) : List.range' i 1 = [i] := rfl

theorem range'_succ_cons (i m : ℕ) : List.range' i (m + 1) = i :: List.range' (i + 1) m := rfl

/-- The loop resolves at the first non-retryable response: success returns that
transaction hash, a 401 or a fee mismatch aborts; in each case exactly the
indices `i, …, i+k` have been attempted. -/
theorem settleLoop_progress (resp : ℕ → SettleResp) :
    ∀ (k : ℕ) (hs : List FacilitatorHeader) (i : ℕ) (last : Option UErr),
      k < hs.length → (∀ j, j < k → isRetryable (resp (i + j)) = true) →
      isRetryable (resp (i + k)) = false →
      settleLoop resp i hs last = (List.range' i (k + 1),
        match resp (i + k) with
        | .success tx => .ok tx
        | .http401 => .error .authenticationFailed
        | .feeMismatch r => .error (.feeMismatchFailed r)
        | .failure r => .error (.paymentFailed r)
        | .netError m => .error (.networkFailed m)) := by
  intro k
  induction k with
  | zero =>
    intro hs i last hk _ hnr
    cases hs with
    | nil => simp at hk
    | cons hd rest =>
      rw [show i + 0 = i from rfl] at hnr ⊢
      cases hr : resp i with
      | success tx => rw [settleLoop_success hr, range'_one]
      | http401 => rw [settleLoop_auth hr, range'_one]
      | feeMismatch r => rw [settleLoop_feeMismatch hr, range'_one]
      | failure r => rw [hr] at hnr; simp [isRetryable] at hnr
      | netError m => rw [hr] at hnr; simp [isRetryable] at hnr
  | succ k ih =>
    intro hs i last hk hretry hnr
    cases hs with
    | nil => simp at hk
    | cons hd rest =>
      have h0 : isRetryable (resp i) = true := by simpa using hretry 0 (Nat.succ_pos k)
      have hshift : ∀ j, j < k → isRetryable (resp (i + 1 + j)) = true := by
        intro j hj
        have := hretry (j + 1) (by omega)
        rwa [show i + (j + 1) = i + 1 + j by omega] at this
      have hk' : k < rest.length := by
        have := hk
        simp only [List.length_cons] at this
        omega
      have hidx : i + 1 + k = i + (k + 1) := by omega
      have hnr' : isRetryable (resp (i + 1 + k)) = false := by rw [hidx]; exact hnr
      cases hr : resp i with
      | success tx => rw [hr] at h0; simp [isRetryable] at h0
      | http401 => rw [hr] at h0; simp [isRetryable] at h0
      | feeMismatch r => rw [hr] at h0; simp [isRetryable] at h0
      | failure r =>
        rw [settleLoop_failure hr, ih rest (i + 1) (some (.paymentFailed r)) hk' hshift hnr',
          hidx, ← range'_succ_cons]
      | netError m =>
        rw [settleLoop_netError hr, ih rest (i + 1) (some (.networkFailed m)) hk' hshift hnr',
          hidx, ← range'_succ_cons]

/-- When every response is retryable, the loop exhausts the list and surfaces
the error of the last attempt. -/
theorem settleLoop_exhausted (resp : ℕ → SettleResp) :
    ∀ (hs : List FacilitatorHeader) (i : ℕ) (last : Option UErr) (e : UErr),
      hs ≠ [] →
      (∀ j, j < hs.length → isRetryable (resp (i + j)) = true) →
      settleErr (resp (i + (hs.length - 1))) = some e →
      settleLoop resp i hs last = (List.range' i hs.length, .error e) := by
  intro hs
  induction hs with
  | nil => intro i last e hne _ _; exact absurd rfl hne
  | cons hd rest ih =>
    intro i last e _ hretry hlast
    cases rest with
    | nil =>
      have h0 : isRetryable (resp i) = true := by simpa using hretry 0 (by simp)
      cases hr : resp i with
      | success tx => rw [hr] at h0; simp [isRetryable] at h0
      | http401 => rw [hr] at h0; simp [isRetryable] at h0
      | feeMismatch r => rw [hr] at h0; simp [isRetryable] at h0
      | failure r =>
        rw [settleLoop_failure hr]
        simp only [List.length_cons, List.length_nil, Nat.add_sub_cancel] at hlast
        rw [show i + 0 = i by omega, hr] at hlast
        simp only [settleErr, Option.some.injEq] at hlast
        rw [settleLoop_nil]
        simp [List.range', ← hlast]
      | netError m =>
        rw [settleLoop_netError hr]
        simp only [List.length_cons, List.length_nil, Nat.add_sub_cancel] at hlast
        rw [show i + 0 = i by omega, hr] at hlast
        simp only [settleErr, Option.some.injEq] at hlast
        rw [settleLoop_nil]
        simp [List.range', ← hlast]
    | cons hd2 rest2 =>
      have h0 : isRetryable (resp i) = true := by simpa using hretry 0 (by simp)
      have hshift : ∀ j, j < (hd2 :: rest2).length → isRetryable (resp (i + 1 + j)) = true := by
        intro j hj
        have := hretry (j + 1) (by simpa using Nat.succ_lt_succ hj)
        rwa [show i + (j + 1) = i + 1 + j by omega] at this
      have hlast' : settleErr (resp (i + 1 + ((hd2 :: rest2).length - 1))) = some e := by
        rw [show i + 1 + ((hd2 :: rest2).length - 1)
          = i + ((hd2 :: rest2 : List FacilitatorHeader).length) by simp; omega]
        simpa using hlast
      cases hr : resp i with
      | success tx => rw [hr] at h0; simp [isRetryable] at h0
      | http401 => rw [hr] at h0; simp [isRetryable] at h0
      | feeMismatch r => rw [hr] at h0; simp [isRetryable] at h0
      | failure r =>
        rw [settleLoop_failure hr,
          ih (i + 1) (some (.paymentFailed r)) e (by simp) hshift hlast']
        simp [List.range']
      | netError m =>
        rw [settleLoop_netError hr,
          ih (i + 1) (some (.networkFailed m)) e (by simp) hshift hlast']
        simp [List.range']

/-! ### Exact-decimal values are fixed by `toFixed` -/

theorem toFixedVal_int {d : ℕ} {q : ℚ} {m : ℤ} (h : (m : ℚ) = q * 10 ^ d) :
    toFixedVal d q = q := by
  have hpow : (0 : ℚ) < 10 ^ d := by positivity
  have hq : q = (m : ℚ) / 10 ^ d := by
    rw [h]
    field_simp
  have habs : |q| * 10 ^ d = ((|m| : ℤ) : ℚ) := by
    rw [hq, abs_div, abs_of_pos hpow, div_mul_cancel₀ _ (ne_of_gt hpow), Int.cast_abs]
  have hfloor : ⌊((|m| : ℤ) : ℚ) + 1 / 2⌋ = |m| := by
    rw [Int.floor_eq_iff]
    constructor
    · linarith
    · push_cast
      linarith

  have hScaled : toFixedScaled d q = |m|.toNat := by
    unfold toFixedScaled
    rw [habs, show (1:ℚ)/2 = 1/2 from rfl, hfloor]
  unfold toFixedVal
  rw [hScaled]
  have hcast : ((|m|.toNat : ℕ) : ℚ) = ((|m| : ℤ) : ℚ) := by
    norm_cast
    exact Int.toNat_of_nonneg (abs_nonneg m)
  by_cases hq0 : q < 0
  · rw [if_pos hq0, hcast]
    have hm : m < 0 := by
      by_contra hm0
      have : (0:ℚ) ≤ (m : ℚ) := by exact_mod_cast not_lt.mp hm0
      have : 0 ≤ q := by
        rw [hq]
        positivity
      linarith
    rw [abs_of_neg hm, hq]
    push_cast
    ring
  · rw [if_neg hq0, hcast]
    have hm : 0 ≤ m := by
      by_contra hm0
      have hmlt : m < 0 := by omega
      have : q < 0 := by
        rw [hq]
        apply div_neg_of_neg_of_pos _ hpow
        exact_mod_cast hmlt
      exact hq0 this
    rw [abs_of_nonneg hm, hq]
    ring

/-! ### Signer unfolding equations -/

theorem solanaSign_none {chain : SolanaChain} {toAddr amt src dst : List Char}
    {fp : Option (List Char)} (hp : parseFloat amt = none) :
    SolanaSigner.signPayment chain toAddr amt src dst fp = .error .signingFailed := by
  unfold SolanaSigner.signPayment
  simp only [hp]

theorem solanaSign_ok_eq {chain : SolanaChain} {toAddr amt src dst : List Char}
    {fp : Option (List Char)} {g : ℚ} (hp : parseFloat amt = some g) :
    SolanaSigner.signPayment chain toAddr amt src dst fp = .ok
      { x402Version := 1, scheme := "exact".toList, network := src
      , transaction :=
        { feePayer := fp.getD PAYAI_FEE_PAYER
        , instructions := [.computeUnitLimit 40000, .computeUnitPrice 1]
            ++ (if chain.destinationAtaExists then [] else [.createAssociatedTokenAccount])
            ++ [.transferChecked (Int.floor (g * 1000000)) chain.mintDecimals]
        , amountAtomic := Int.floor (g * 1000000) }
      , crossChainMeta := if src ≠ dst then some (dst, toAddr) else none } := by
  unfold SolanaSigner.signPayment
  simp only [hp]

theorem solanaSign_ok_feePayer {chain : SolanaChain} {toAddr amt src dst : List Char}
    {fp : Option (List Char)} {h : SolanaHeader}
    (hok : SolanaSigner.signPayment chain toAddr amt src dst fp = .ok h) :
    h.transaction.feePayer = fp.getD PAYAI_FEE_PAYER := by
  cases hp : parseFloat amt with
  | none => rw [solanaSign_none hp] at hok; cases hok
  | some g =>
    rw [solanaSign_ok_eq hp] at hok
    injection hok with h'
    rw [← h']

theorem evmSign_none {ctx : EvmSignContext} {toAddr amt src dst : List Char}
    (hp : parseFloat amt = none) :
    EVMSigner.signPayment ctx toAddr amt src dst = .error .signingFailed := by
  unfold EVMSigner.signPayment
  simp only [hp]

theorem evmSign_ok_eq {ctx : EvmSignContext} {toAddr amt src dst : List Char} {g : ℚ}
    (hp : parseFloat amt = some g) :
    EVMSigner.signPayment ctx toAddr amt src dst = .ok
      { x402Version := 1, scheme := "exact".toList, network := src
      , authorization :=
        { fromAddr := ctx.signerAddress, toAddr := toAddr
        , value := Int.floor (g * 1000000), validAfter := 0
        , validBefore := ctx.nowEpochSeconds + 3600 } } := by
  unfold EVMSigner.signPayment
  simp only [hp]

/-! ### Fee-payer binding of the generated Solana headers -/

theorem buildSolanaHeaders_mem (chain : SolanaChain) (toAddr amt src dst : List Char) :
    ∀ (facs : List RankedFacilitator) (hs : List FacilitatorHeader),
      buildSolanaHeaders chain toAddr amt src dst facs = .ok hs →
      ∀ fh ∈ hs, ∃ (sh : SolanaHeader) (fp : List Char),
        fh.paymentHeader = .sol sh ∧ fh.solanaFeePayer = some fp
          ∧ sh.transaction.feePayer = fp := by
  intro facs
  induction facs with
  | nil =>
    intro hs hok fh hmem
    simp only [buildSolanaHeaders] at hok
    injection hok with h'
    rw [← h'] at hmem
    cases hmem
  | cons f rest ih =>
    intro hs hok fh hmem
    simp only [buildSolanaHeaders] at hok
    cases hfp : f.solanaFeePayer with
    | none =>
      simp only [hfp] at hok
      exact ih hs hok fh hmem
    | some fpA =>
      simp only [hfp] at hok
      cases hsig : SolanaSigner.signPayment chain toAddr amt src dst (some fpA) with
      | error e => rw [hsig] at hok; cases hok
      | ok header =>
        rw [hsig] at hok
        cases hrec : buildSolanaHeaders chain toAddr amt src dst rest with
        | error e => rw [hrec] at hok; cases hok
        | ok hs' =>
          rw [hrec] at hok
          injection hok with h'
          rw [← h'] at hmem
          cases List.mem_cons.mp hmem with
          | inl heq =>
            subst heq
            exact ⟨header, fpA, rfl, rfl, by simpa using solanaSign_ok_feePayer hsig⟩
          | inr hmem' => exact ih hs' hrec fh hmem'

theorem solanaFallbackHeader_mem {chain : SolanaChain} {toAddr amt src dst : List Char}
    {hs : List FacilitatorHeader}
    (hok : solanaFallbackHeader chain toAddr amt src dst = .ok hs) :
    ∀ fh ∈ hs, ∃ sh : SolanaHeader, fh.paymentHeader = .sol sh
      ∧ fh.solanaFeePayer = none ∧ sh.transaction.feePayer = PAYAI_FEE_PAYER := by
  unfold solanaFallbackHeader at hok
  cases hsig : SolanaSigner.signPayment chain toAddr amt src dst none with
  | error e => rw [hsig] at hok; cases hok
  | ok header =>
    rw [hsig] at hok
    injection hok with h'
    intro fh hmem
    rw [← h'] at hmem
    rw [List.mem_singleton.mp hmem]
    exact ⟨header, rfl, rfl, by simpa using solanaSign_ok_feePayer hsig⟩

/-! ### Address-shape characterizations for network detection -/

theorem startsWith0x_iff (l : List Char) :
    startsWith0x l = true ↔ l.take 2 = ['0', 'x'] := by
  match l with
  | [] => simp [startsWith0x]
  | [a] => simp [startsWith0x]
  | a :: b :: t => simp [startsWith0x, List.take_succ_cons, and_comm]

theorem containsDotEth_iff (l : List Char) :
    containsDotEth l = true
      ↔ ∃ x y, l = x ++ ('.' :: 'e' :: 't' :: 'h' :: y) := by
  induction l with
  | nil =>
    simp only [containsDotEth]
    constructor
    · intro h; cases h
    · rintro ⟨x, y, hxy⟩
      exact absurd hxy.symm (List.append_ne_nil_of_right_ne_nil x (by simp))
  | cons c t ih =>
    simp only [containsDotEth, Bool.or_eq_true]
    constructor
    · rintro (hd | ht)
      · match t with
        | [] => simp [dotEthAt] at hd
        | [b] => simp [dotEthAt] at hd
        | [b, c'] => simp [dotEthAt] at hd
        | b :: c' :: d :: rest =>
          simp only [dotEthAt, Bool.and_eq_true, decide_eq_true_eq] at hd
          obtain ⟨⟨⟨h1, h2⟩, h3⟩, h4⟩ := hd
          exact ⟨[], rest, by rw [h1, h2, h3, h4]; rfl⟩
      · obtain ⟨x, y, hx⟩ := ih.mp ht
        exact ⟨c :: x, y, by rw [hx]; rfl⟩
    · rintro ⟨x, y, hx⟩
      cases x with
      | nil =>
        left
        injection hx with h1 h2
        rw [h1, h2]
        simp [dotEthAt]
      | cons a x' =>
        right
        injection hx with h1 h2
        exact ih.mpr ⟨x', y, h2⟩

theorem detect_cond1_iff (addr : List Char) :
    (startsWith0x addr && decide (addr.length = 42)) = true
      ↔ (addr.take 2 = ['0', 'x'] ∧ addr.length = 42) := by
  rw [Bool.and_eq_true, decide_eq_true_eq, startsWith0x_iff]

theorem detect_cond2_iff (addr : List Char) :
    (decide (32 ≤ addr.length) && decide (addr.length ≤ 44)
        && !addr.isEmpty && addr.all base58Char) = true
      ↔ (32 ≤ addr.length ∧ addr.length ≤ 44 ∧ ∀ c ∈ addr, base58Char c = true) := by
  simp only [Bool.and_eq_true, decide_eq_true_eq, Bool.not_eq_true', List.all_eq_true]
  constructor
  · rintro ⟨⟨⟨h1, h2⟩, _⟩, h4⟩
    exact ⟨h1, h2, h4⟩
  · rintro ⟨h1, h2, h4⟩
    refine ⟨⟨⟨h1, h2⟩, ?_⟩, h4⟩
    rcases addr with _ | ⟨a, t⟩
    · simp at h1
    · rfl

/-! ### `List.range'` has no duplicates -/

/-- Inversion of a successful `calculateFees` run, naming each intermediate. -/
theorem calculateFees_ok_inv {prep : PreparePaymentResponse} {amt : List Char} {g : ℚ}
    {fees : CalculatedFees} (hp : parseFloat amt = some g) (hg : 0 < g)
    (hc : calculateFees prep amt = .ok fees) :
    ∃ (feePercent pctFee : ℚ) (minApplies : Bool) (processingFee ataFee : ℚ),
      feePercent = (if prep.isCrossChain then prep.feeConfig.crosschainFeePercent
        else prep.feeConfig.samechainFeePercent)
      ∧ pctFee = g * feePercent / 100
      ∧ minApplies = (prep.isCrossChain && decide (0 < prep.feeConfig.minimumCrosschainFee)
          && decide (pctFee < prep.feeConfig.minimumCrosschainFee))
      ∧ processingFee = (if minApplies then prep.feeConfig.minimumCrosschainFee else pctFee)
      ∧ ataFee = (if prep.ataCheck.needsCreation then prep.feeConfig.ataCreationFee else 0)
      ∧ fees = { grossAmount := toFixedStr 6 g
               , processingFee := toFixedStr 6 processingFee
               , ataFee := toFixedStr 6 ataFee
               , totalFees := toFixedStr 6 (processingFee + ataFee)
               , netAmount := toFixedStr 6 (max 0 (g - (processingFee + ataFee)))
               , processingFeePercent := feePercent
               , minimumFeeApplied := minApplies } := by
  refine ⟨_, _, _, _, _, rfl, rfl, rfl, rfl, rfl, ?_⟩
  rw [calculateFees_ok_eq hp hg] at hc
  injection hc with h'
  exact h'.symm

theorem range'_nodup : ∀ (m i : ℕ), (List.range' i m).Nodup := by
  intro m
  induction m with
  | zero => intro i; exact List.nodup_nil
  | succ k ih =>
    intro i
    rw [range'_succ_cons]
    refine List.nodup_cons.mpr ⟨?_, ih (i + 1)⟩
    intro hmem
    have := List.mem_range'_1.mp hmem
    omega

/-! ## Claim theorems -/

/-- Claim C1: for every Solana payment signed via `SolanaSigner.signPayment`,
the compiled message's fee payer equals the externally supplied fee-payer
address when one is supplied, falling back to the hardcoded default fee payer
only when none is supplied; consequently every Solana `FacilitatorHeader`
generated by `_signPaymentSolana` wraps an envelope whose fee payer is exactly
the fee payer recorded for the facilitator the header is attributed to (the
default fee payer for the fallback header, which records none), so a header is
bound to its own facilitator's fee payer and never to another's. -/
theorem uplink_c1_fee_payer_binding :
    (∀ (chain : SolanaChain) (toAddr amt src dst : List Char) (fp : Option (List Char))
        (h : SolanaHeader),
      SolanaSigner.signPayment chain toAddr amt src dst fp = .ok h →
        h.transaction.feePayer = fp.getD PAYAI_FEE_PAYER)
    ∧ (∀ (chain : SolanaChain) (rank : RankResp) (toAddr amt src dst : List Char)
        (hs : List FacilitatorHeader),
      _signPaymentSolana chain rank toAddr amt src dst = .ok hs →
      ∀ fh ∈ hs, ∃ sh : SolanaHeader, fh.paymentHeader = .sol sh
        ∧ sh.transaction.feePayer = fh.solanaFeePayer.getD PAYAI_FEE_PAYER) := by
  constructor
  · intro chain toAddr amt src dst fp h hok
    exact solanaSign_ok_feePayer hok
  · intro chain rank toAddr amt src dst hs hok fh hmem
    have fallback : solanaFallbackHeader chain toAddr amt src dst = .ok hs →
        ∃ sh : SolanaHeader, fh.paymentHeader = .sol sh
          ∧ sh.transaction.feePayer = fh.solanaFeePayer.getD PAYAI_FEE_PAYER := by
      intro hfb
      obtain ⟨sh, hp, hfpn, hfpp⟩ := solanaFallbackHeader_mem hfb fh hmem
      exact ⟨sh, hp, by rw [hfpn]; exact hfpp⟩
    cases rank with
    | httpError => exact fallback hok
    | netException => exact fallback hok
    | ok facilitators =>
      have hred : _signPaymentSolana chain (.ok facilitators) toAddr amt src dst
          = (if facilitators.isEmpty = true
              then solanaFallbackHeader chain toAddr amt src dst
              else match buildSolanaHeaders chain toAddr amt src dst facilitators with
                | .ok hs' => .ok hs'
                | .error _ => solanaFallbackHeader chain toAddr amt src dst) := rfl
      rw [hred] at hok
      by_cases he : facilitators.isEmpty
      · rw [if_pos he] at hok
        exact fallback hok
      · rw [if_neg he] at hok
        cases hb : buildSolanaHeaders chain toAddr amt src dst facilitators with
        | ok hs' =>
          rw [hb] at hok
          injection hok with h'
          rw [h'] at hb
          obtain ⟨sh, fp, hp, hfps, hfpp⟩ :=
            buildSolanaHeaders_mem chain toAddr amt src dst facilitators hs hb fh hmem
          exact ⟨sh, hp, by rw [hfps]; simpa using hfpp⟩
        | error e =>
          rw [hb] at hok
          exact fallback hok

/-- Witness for C1: the header signed with facilitator A's fee payer carries
that fee payer, not the default. -/
theorem uplink_c1_witness :
    exSolHeader.transaction.feePayer = (some ("FEEPAYER_A".toList)).getD PAYAI_FEE_PAYER :=
  uplink_c1_fee_payer_binding.1 exChainAta ("T".toList) ("1.00".toList) ("solana".toList)
    ("solana".toList) (some ("FEEPAYER_A".toList)) exSolHeader (by decide!)

/-- Claim C6: for every Solana payment, the assembled instruction list is
exactly [compute-unit limit, compute-unit price, create-associated-account,
checked-transfer] when the destination's associated token account does not yet
exist, and exactly [compute-unit limit, compute-unit price, checked-transfer]
when it already exists. -/
theorem uplink_c6_instruction_order :
    ∀ (chain : SolanaChain) (toAddr amt src dst : List Char) (fp : Option (List Char))
      (h : SolanaHeader),
      SolanaSigner.signPayment chain toAddr amt src dst fp = .ok h →
      (chain.destinationAtaExists = false →
        h.transaction.instructions
          = [.computeUnitLimit 40000, .computeUnitPrice 1, .createAssociatedTokenAccount,
             .transferChecked h.transaction.amountAtomic chain.mintDecimals])
      ∧ (chain.destinationAtaExists = true →
        h.transaction.instructions
          = [.computeUnitLimit 40000, .computeUnitPrice 1,
             .transferChecked h.transaction.amountAtomic chain.mintDecimals]) := by
  intro chain toAddr amt src dst fp h hok
  cases hp : parseFloat amt with
  | none => rw [solanaSign_none hp] at hok; cases hok
  | some g =>
    rw [solanaSign_ok_eq hp] at hok
    injection hok with h'
    constructor <;> intro hata <;> rw [← h'] <;> simp [hata]

/-- Witness for C6: with the destination account absent, the four instructions
appear in the required order. -/
theorem uplink_c6_witness :
    exSolHeaderNoAta.transaction.instructions
      = [.computeUnitLimit 40000, .computeUnitPrice 1, .createAssociatedTokenAccount,
         .transferChecked exSolHeaderNoAta.transaction.amountAtomic exChainNoAta.mintDecimals] :=
  (uplink_c6_instruction_order exChainNoAta ("T".toList) ("1.00".toList) ("solana".toList)
    ("solana".toList) none exSolHeaderNoAta (by decide!)).1 (by decide)

/-- Claim C8: `_detectNetworkFromAddress` is total (a Lean function) and, on
the trimmed address: a `"0x"`-prefixed string of length exactly 42 resolves to
`"base"`; otherwise a nonempty base58-alphabet string of length 32 to 44
resolves to `"solana"`; otherwise a string containing `".eth"` resolves to
`"base"`; every other string falls back to the configured default network. -/
theorem uplink_c8_network_detection (configNetwork address : List Char) :
    ((trim address).take 2 = ['0', 'x'] ∧ (trim address).length = 42 →
      _detectNetworkFromAddress configNetwork address = "base".toList)
    ∧ (¬((trim address).take 2 = ['0', 'x'] ∧ (trim address).length = 42) →
      (32 ≤ (trim address).length ∧ (trim address).length ≤ 44
        ∧ ∀ c ∈ trim address, base58Char c = true) →
      _detectNetworkFromAddress configNetwork address = "solana".toList)
    ∧ (¬((trim address).take 2 = ['0', 'x'] ∧ (trim address).length = 42) →
      ¬(32 ≤ (trim address).length ∧ (trim address).length ≤ 44
        ∧ ∀ c ∈ trim address, base58Char c = true) →
      (∃ x y, trim address = x ++ ('.' :: 'e' :: 't' :: 'h' :: y)) →
      _detectNetworkFromAddress configNetwork address = "base".toList)
    ∧ (¬((trim address).take 2 = ['0', 'x'] ∧ (trim address).length = 42) →
      ¬(32 ≤ (trim address).length ∧ (trim address).length ≤ 44
        ∧ ∀ c ∈ trim address, base58Char c = true) →
      ¬(∃ x y, trim address = x ++ ('.' :: 'e' :: 't' :: 'h' :: y)) →
      _detectNetworkFromAddress configNetwork address = configNetwork) := by
  refine ⟨?_, ?_, ?_, ?_⟩
  · intro h1
    unfold _detectNetworkFromAddress
    rw [if_pos ((detect_cond1_iff (trim address)).mpr h1)]
  · intro h1 h2
    unfold _detectNetworkFromAddress
    rw [if_neg (fun hc => h1 ((detect_cond1_iff (trim address)).mp hc)),
      if_pos ((detect_cond2_iff (trim address)).mpr h2)]
  · intro h1 h2 h3
    unfold _detectNetworkFromAddress
    rw [if_neg (fun hc => h1 ((detect_cond1_iff (trim address)).mp hc)),
      if_neg (fun hc => h2 ((detect_cond2_iff (trim address)).mp hc)),
      if_pos ((containsDotEth_iff (trim address)).mpr h3)]
  · intro h1 h2 h3
    unfold _detectNetworkFromAddress
    rw [if_neg (fun hc => h1 ((detect_cond1_iff (trim address)).mp hc)),
      if_neg (fun hc => h2 ((detect_cond2_iff (trim address)).mp hc)),
      if_neg (fun hc => h3 ((containsDotEth_iff (trim address)).mp hc))]

/-- Witness for C8: a 42-character hex-prefixed address resolves to `"base"`
even when the configured network is `"solana"`. -/
theorem uplink_c8_witness :
    _detectNetworkFromAddress ("solana".toList) exEvmAddress = "base".toList :=
  (uplink_c8_network_detection ("solana".toList) exEvmAddress).1 (by decide)

/-- Claim C10: the constructor produces a client exactly when the API key is
nonempty and both acceptance flags are set to `true`; any other configuration
is rejected with one of the three validation errors (in particular an absent
flag, whose falsy default `false` fails validation); and every constructed
client records both flags as `true`. -/
theorem uplink_c10_constructor_validation :
    (∀ cfg : UplinkConfigIn, (∃ rc, UplinkConstructor cfg = .ok rc)
        ↔ cfg.apiKey ≠ [] ∧ cfg.createAtaFeeAcceptance = some true
            ∧ cfg.minimumCrosschainFeeAcceptance = some true)
    ∧ (∀ (cfg : UplinkConfigIn) (rc : ResolvedConfig), UplinkConstructor cfg = .ok rc →
        rc.createAtaFeeAcceptance = true ∧ rc.minimumCrosschainFeeAcceptance = true)
    ∧ (∀ (cfg : UplinkConfigIn) (e : UErr), UplinkConstructor cfg = .error e →
        e = .apiKeyRequired ∨ e = .ataAcceptanceRequired ∨ e = .crosschainAcceptanceRequired)
    ∧ (∀ cfg : UplinkConfigIn, cfg.apiKey ≠ [] → cfg.createAtaFeeAcceptance = none →
        UplinkConstructor cfg = .error .ataAcceptanceRequired) := by
  refine ⟨?_, ?_, ?_, ?_⟩
  · intro cfg
    constructor
    · rintro ⟨rc, hrc⟩
      unfold UplinkConstructor at hrc
      by_cases h1 : cfg.apiKey = []
      · rw [if_pos h1] at hrc; cases hrc
      · rw [if_neg h1] at hrc
        by_cases h2 : cfg.createAtaFeeAcceptance ≠ some true
        · rw [if_pos h2] at hrc; cases hrc
        · rw [if_neg h2] at hrc
          by_cases h3 : cfg.minimumCrosschainFeeAcceptance ≠ some true
          · rw [if_pos h3] at hrc; cases hrc
          · exact ⟨h1, not_not.mp h2, not_not.mp h3⟩
    · rintro ⟨h1, h2, h3⟩
      refine ⟨{ apiKey := cfg.apiKey, network := cfg.network.getD ("base".toList)
              , createAtaFeeAcceptance := cfg.createAtaFeeAcceptance.getD false
              , minimumCrosschainFeeAcceptance :=
                  cfg.minimumCrosschainFeeAcceptance.getD false }, ?_⟩
      unfold UplinkConstructor
      rw [if_neg h1, if_neg (by simp [h2]), if_neg (by simp [h3])]
  · intro cfg rc hrc
    unfold UplinkConstructor at hrc
    by_cases h1 : cfg.apiKey = []
    · rw [if_pos h1] at hrc; cases hrc
    · rw [if_neg h1] at hrc
      by_cases h2 : cfg.createAtaFeeAcceptance ≠ some true
      · rw [if_pos h2] at hrc; cases hrc
      · rw [if_neg h2] at hrc
        by_cases h3 : cfg.minimumCrosschainFeeAcceptance ≠ some true
        · rw [if_pos h3] at hrc; cases hrc
        · rw [if_neg h3] at hrc
          injection hrc with h'
          rw [← h', not_not.mp h2, not_not.mp h3]
          exact ⟨rfl, rfl⟩
  · intro cfg e hrc
    unfold UplinkConstructor at hrc
    by_cases h1 : cfg.apiKey = []
    · rw [if_pos h1] at hrc
      exact Or.inl (Except.error.inj hrc).symm
    · rw [if_neg h1] at hrc
      by_cases h2 : cfg.createAtaFeeAcceptance ≠ some true
      · rw [if_pos h2] at hrc
        exact Or.inr (Or.inl (Except.error.inj hrc).symm)
      · rw [if_neg h2] at hrc
        by_cases h3 : cfg.minimumCrosschainFeeAcceptance ≠ some true
        · rw [if_pos h3] at hrc
          exact Or.inr (Or.inr (Except.error.inj hrc).symm)
        · rw [if_neg h3] at hrc
          cases hrc
  · intro cfg h1 h2
    unfold UplinkConstructor
    rw [if_neg h1, if_pos (by rw [h2]; exact fun h => Option.noConfusion h)]

/-- Witness for C10: the fully acknowledged configuration constructs a client. -/
theorem uplink_c10_witness : ∃ rc, UplinkConstructor exCfgOk = .ok rc :=
  (uplink_c10_constructor_validation.1 exCfgOk).mpr ⟨by decide, by decide, by decide⟩

/-- Claim C4: whenever the locally recomputed (reparsed) gross amount is
strictly below the reparsed total fees, `pay` rejects with the insufficiency
error itemizing the processing fee, the ATA-creation fee when positive, and
the minimum viable payment `totalFees + 0.01` rendered with two decimals —
and the outcome is the same for every signing result and settlement oracle,
i.e. no signer output or settlement submission is consumed. -/
theorem uplink_c4_insufficiency_rejection :
    ∀ (prep : PreparePaymentResponse) (amt : List Char) (fees : CalculatedFees) (gq tq : ℚ),
      calculateFees prep amt = .ok fees →
      parseFloat fees.grossAmount = some gq →
      parseFloat fees.totalFees = some tq →
      gq < tq →
      ∀ (signResult : Except UErr (List FacilitatorHeader)) (resp : ℕ → SettleResp),
        pay prep amt signResult resp
          = .error (.insufficientAmount fees.processingFee
              (if gt0Opt (parseFloat fees.ataFee) then some fees.ataFee else none)
              (toFixedStr 2 (tq + 1 / 100))) := by
  intro prep amt fees gq tq hc hg ht hlt signResult resp
  rw [pay_of_calculateFees_ok hc signResult resp, hg, ht,
    if_pos (by simp [ltOpt, hlt])]
  rfl

/-- Witness for C4: the spec's insufficiency scenario — gross $0.20 against
fees $0.01 + $0.40 — is rejected with the itemized error and the minimum
viable payment `"0.42"`, with a success-returning settlement oracle left
unused. -/
theorem uplink_c4_witness :
    pay exPrepCrossAta ("0.20".toList) (.ok [exHdr]) (fun _ => .success ("tx".toList))
      = .error (.insufficientAmount ("0.010000".toList) (some ("0.400000".toList))
          ("0.42".toList)) := by
  have h := uplink_c4_insufficiency_rejection exPrepCrossAta ("0.20".toList) exFeesC4
    (1/5) (41/100) (by decide!) (by decide!) (by decide!) (by decide!)
    (.ok [exHdr]) (fun _ => .success ("tx".toList))
  exact h.trans (by decide!)

/-- Claim C5: the settlement failover submits headers strictly sequentially
from index 0: the attempted indices are always an initial duplicate-free
segment `0, …, m−1` (no index is retried); if the responses before `k` are all
retryable and response `k` is a success, the loop returns that transaction
hash having attempted exactly `0, …, k`; a 401 or a fee-mismatch at `k`
likewise aborts immediately after `0, …, k` with the corresponding error; and
when every response is retryable the loop attempts every header and surfaces
the last recorded error. -/
theorem uplink_c5_failover (resp : ℕ → SettleResp) (hs : List FacilitatorHeader) :
    (∃ m, m ≤ hs.length ∧ (settleLoop resp 0 hs none).1 = List.range' 0 m
        ∧ ((settleLoop resp 0 hs none).1).Nodup)
    ∧ (∀ (k : ℕ) (tx : List Char), k < hs.length →
        (∀ j, j < k → isRetryable (resp j) = true) → resp k = .success tx →
        settleLoop resp 0 hs none = (List.range' 0 (k + 1), .ok tx))
    ∧ (∀ k : ℕ, k < hs.length →
        (∀ j, j < k → isRetryable (resp j) = true) → resp k = .http401 →
        settleLoop resp 0 hs none = (List.range' 0 (k + 1), .error .authenticationFailed))
    ∧ (∀ (k : ℕ) (r : List Char), k < hs.length →
        (∀ j, j < k → isRetryable (resp j) = true) → resp k = .feeMismatch r →
        settleLoop resp 0 hs none = (List.range' 0 (k + 1), .error (.feeMismatchFailed r)))
    ∧ (∀ e : UErr, hs ≠ [] →
        (∀ j, j < hs.length → isRetryable (resp j) = true) →
        settleErr (resp (hs.length - 1)) = some e →
        settleLoop resp 0 hs none = (List.range' 0 hs.length, .error e)) := by
  refine ⟨?_, ?_, ?_, ?_, ?_⟩
  · obtain ⟨m, hm, ha⟩ := settleLoop_attempts resp hs 0 none
    exact ⟨m, hm, ha, by rw [ha]; exact range'_nodup m 0⟩
  · intro k tx hk hretry hresp
    have h := settleLoop_progress resp k hs 0 none hk
      (by intro j hj; simpa using hretry j hj)
      (by rw [Nat.zero_add, hresp]; rfl)
    rw [Nat.zero_add, hresp] at h
    exact h
  · intro k hk hretry hresp
    have h := settleLoop_progress resp k hs 0 none hk
      (by intro j hj; simpa using hretry j hj)
      (by rw [Nat.zero_add, hresp]; rfl)
    rw [Nat.zero_add, hresp] at h
    exact h
  · intro k r hk hretry hresp
    have h := settleLoop_progress resp k hs 0 none hk
      (by intro j hj; simpa using hretry j hj)
      (by rw [Nat.zero_add, hresp]; rfl)
    rw [Nat.zero_add, hresp] at h
    exact h
  · intro e hne hall hlast
    exact settleLoop_exhausted resp hs 0 none e hne
      (by intro j hj; simpa using hall j hj) (by simpa using hlast)

/-- Witness for C5: the spec's failover scenario — two ordinary failures, then
a success — returns the third facilitator's transaction hash after attempting
exactly the indices 0, 1, 2. -/
theorem uplink_c5_witness :
    settleLoop exResp3 0 [exHdr, exHdr, exHdr] none = ([0, 1, 2], .ok ("tx3".toList)) := by
  have h := (uplink_c5_failover exResp3 [exHdr, exHdr, exHdr]).2.1 2 ("tx3".toList)
    (by decide) (by intro j hj; interval_cases j <;> decide) (by decide)
  exact h.trans (by decide!)

/-- Claim C2 (amended): both signers convert the amount they are handed with
`Math.floor(parseFloat(amount) * 10^6)`, so the signed atomic value equals the
floor of the parsed amount times `10^6`; since `pay` hands the signer the raw
caller amount while `CalculatedFees.grossAmount` is that amount re-rendered
with `toFixed(6)` (round half away from zero), the signed value equals
`grossAmount × 10^6` exactly when the parsed amount is an exact multiple of
`10^-6` — not for every payment that reaches signing. -/
theorem uplink_c2_signed_value :
    (∀ (ctx : EvmSignContext) (toAddr amt src dst : List Char) (g : ℚ) (h : EvmHeader),
      parseFloat amt = some g →
      EVMSigner.signPayment ctx toAddr amt src dst = .ok h →
      h.authorization.value = Int.floor (g * 1000000))
    ∧ (∀ (chain : SolanaChain) (toAddr amt src dst : List Char) (fp : Option (List Char))
        (g : ℚ) (h : SolanaHeader),
      parseFloat amt = some g →
      SolanaSigner.signPayment chain toAddr amt src dst fp = .ok h →
      h.transaction.amountAtomic = Int.floor (g * 1000000))
    ∧ (∀ (prep : PreparePaymentResponse) (amt : List Char) (g : ℚ) (m : ℤ)
        (fees : CalculatedFees),
      parseFloat amt = some g → 0 < g → (m : ℚ) = g * 1000000 →
      calculateFees prep amt = .ok fees →
      ((Int.floor (g * 1000000) : ℤ) : ℚ)
        = (parseFloat fees.grossAmount).getD 0 * 1000000) := by
  refine ⟨?_, ?_, ?_⟩
  · intro ctx toAddr amt src dst g h hp hok
    rw [evmSign_ok_eq hp] at hok
    injection hok with h'
    rw [← h']
  · intro chain toAddr amt src dst fp g h hp hok
    rw [solanaSign_ok_eq hp] at hok
    injection hok with h'
    rw [← h']
  · intro prep amt g m fees hp hg hm hc
    have hgross : fees.grossAmount = toFixedStr 6 g := by
      rw [calculateFees_ok_eq hp hg] at hc
      injection hc with h'
      rw [← h']
    have hm6 : (m : ℚ) = g * 10 ^ 6 := by rw [hm]; norm_num
    have hfix : toFixedVal 6 g = g := toFixedVal_int hm6
    rw [hgross, parseFloat_toFixedStr (by norm_num) g, hfix, Option.getD_some, ← hm,
      Int.floor_intCast]

/-- Witness for C2: a $1.50 payment is signed as exactly 1 500 000 atomic
units. -/
theorem uplink_c2_witness :
    exEvmHeader.authorization.value = Int.floor ((3/2 : ℚ) * 1000000) :=
  uplink_c2_signed_value.1 exEvmCtx ("W".toList) ("1.50".toList) ("base".toList)
    ("base".toList) (3/2) exEvmHeader (by decide!) (by decide!)

/-- Counterexample for C2 as frozen: for the amount `"0.9999999"` the fee
breakdown reports `grossAmount = "1.000000"` (toFixed(6) rounds up), the EVM
signer signs 999 999 atomic units (floor), the payment completes — so it
reached the signing step — yet `999999 ≠ grossAmount × 10^6 = 1000000`. -/
theorem uplink_c2_counterexample :
    (calculateFees exPrepSame ("0.9999999".toList)).toOption.map
        (fun f => f.grossAmount) = some ("1.000000".toList)
    ∧ (EVMSigner.signPayment exEvmCtx ("W".toList) ("0.9999999".toList) ("base".toList)
        ("base".toList)).toOption.map (fun h => h.authorization.value) = some 999999
    ∧ pay exPrepSame ("0.9999999".toList)
        (_signPaymentEvm exEvmCtx ("W".toList) ("0.9999999".toList) ("base".toList)
          ("base".toList))
        (fun _ => .success ("tx".toList)) = .ok ("tx".toList)
    ∧ ¬((999999 : ℚ) = (parseFloat ("1.000000".toList)).getD 0 * 1000000) := by
  refine ⟨by decide!, by decide!, by decide!, by decide!⟩

/-- Claim C3 (amended): `calculateFees` rejects exactly the non-numeric and
non-positive amounts with the validation error; on a positive parsed amount it
uses the cross-chain percent when `isCrossChain` and the same-chain percent
otherwise, renders `grossAmount` from the parsed amount, charges the ATA fee
exactly when the destination needs a new account, clamps to the configured
cross-chain minimum and records the floor exactly when cross-chain AND the
configured minimum is positive AND the percentage fee is below it (the
positivity guard is absent from the frozen claim), and satisfies
`totalFees = processingFee + ataFee` and `netAmount = max 0 (gross − totalFees)`
as `toFixed(6)` renderings. -/
theorem uplink_c3_fee_computation :
    (∀ (prep : PreparePaymentResponse) (amt : List Char),
      calculateFees prep amt = .error .invalidAmount
        ↔ (parseFloat amt = none ∨ ∃ g, parseFloat amt = some g ∧ g ≤ 0))
    ∧ (∀ (prep : PreparePaymentResponse) (amt : List Char) (g : ℚ) (fees : CalculatedFees),
      parseFloat amt = some g → 0 < g → calculateFees prep amt = .ok fees →
      fees.processingFeePercent
          = (if prep.isCrossChain then prep.feeConfig.crosschainFeePercent
             else prep.feeConfig.samechainFeePercent)
        ∧ fees.grossAmount = toFixedStr 6 g
        ∧ fees.ataFee = toFixedStr 6
            (if prep.ataCheck.needsCreation then prep.feeConfig.ataCreationFee else 0)
        ∧ (prep.isCrossChain = true → 0 < prep.feeConfig.minimumCrosschainFee →
            g * fees.processingFeePercent / 100 < prep.feeConfig.minimumCrosschainFee →
            fees.minimumFeeApplied = true
              ∧ fees.processingFee = toFixedStr 6 prep.feeConfig.minimumCrosschainFee)
        ∧ (¬(prep.isCrossChain = true ∧ 0 < prep.feeConfig.minimumCrosschainFee
              ∧ g * fees.processingFeePercent / 100 < prep.feeConfig.minimumCrosschainFee) →
            fees.minimumFeeApplied = false
              ∧ fees.processingFee = toFixedStr 6 (g * fees.processingFeePercent / 100))
        ∧ (∃ p a : ℚ, fees.processingFee = toFixedStr 6 p ∧ fees.ataFee = toFixedStr 6 a
            ∧ fees.totalFees = toFixedStr 6 (p + a)
            ∧ fees.netAmount = toFixedStr 6 (max 0 (g - (p + a))))) := by
  constructor
  · intro prep amt
    constructor
    · intro he
      cases hp : parseFloat amt with
      | none => exact Or.inl rfl
      | some g =>
        refine Or.inr ⟨g, rfl, ?_⟩
        by_contra hg
        rw [calculateFees_ok_eq hp (not_le.mp (fun hgle => hg hgle))] at he
        simp at he
    · rintro (hnone | ⟨g, hp, hg⟩)
      · exact calculateFees_none hnone
      · exact calculateFees_nonpos hp hg
  · intro prep amt g fees hp hg hc
    obtain ⟨fP, pct, mA, pF, aF, hfP, hpct, hmA, hpF, haF, hfees⟩ :=
      calculateFees_ok_inv hp hg hc
    subst hfees
    refine ⟨hfP, rfl, congrArg (toFixedStr 6) haF, ?_, ?_, ⟨pF, aF, rfl, rfl, rfl, rfl⟩⟩
    · intro hcc hmin hlt
      have hlt2 : g * fP / 100 < prep.feeConfig.minimumCrosschainFee := hlt
      have hpm : pct < prep.feeConfig.minimumCrosschainFee := by rw [hpct]; exact hlt2
      have hB : mA = true := by
        rw [hmA, hcc]
        simp only [Bool.true_and, Bool.and_eq_true, decide_eq_true_eq]
        exact ⟨hmin, hpm⟩
      refine ⟨hB, congrArg (toFixedStr 6) ?_⟩
      rw [hpF, hB]
      rfl
    · intro hnot
      have hB : mA = false := by
        cases hBB : mA with
        | false => rfl
        | true =>
          exfalso
          apply hnot
          rw [hmA] at hBB
          simp only [Bool.and_eq_true, decide_eq_true_eq] at hBB
          refine ⟨hBB.1.1, hBB.1.2, ?_⟩
          have := hBB.2
          rw [hpct] at this
          exact this
      refine ⟨hB, congrArg (toFixedStr 6) ?_⟩
      rw [hpF, hB, hpct]
      rfl

/-- Witness for C3: the documented standard configuration at $10 cross-chain —
0.1% gives a $0.01 processing fee, not below the $0.01 minimum, so no floor is
recorded. -/
theorem uplink_c3_witness :
    exFeesC3.processingFeePercent
      = (if exPrepCross.isCrossChain then exPrepCross.feeConfig.crosschainFeePercent
         else exPrepCross.feeConfig.samechainFeePercent) :=
  (uplink_c3_fee_computation.2 exPrepCross ("10".toList) 10 exFeesC3
    (by decide!) (by decide!) (by decide!)).1

/-- Counterexample for C3 as frozen: with a server-supplied cross-chain percent
of −1% and a configured minimum of 0, the computed fee −0.10 is below the
configured minimum, yet `calculateFees` neither clamps the processing fee to
the minimum nor records that the floor was applied — the code's clamp carries
a `minimumCrosschainFee > 0` guard the claim omits. -/
theorem uplink_c3_counterexample :
    exPrepNeg.isCrossChain = true
    ∧ parseFloat ("10".toList) = some 10
    ∧ (10 : ℚ) * exPrepNeg.feeConfig.crosschainFeePercent / 100
        < exPrepNeg.feeConfig.minimumCrosschainFee
    ∧ (calculateFees exPrepNeg ("10".toList)).toOption.map (fun f => f.minimumFeeApplied)
        = some false
    ∧ (calculateFees exPrepNeg ("10".toList)).toOption.map (fun f => f.processingFee)
        = some ("-0.100000".toList)
    ∧ ("-0.100000".toList ≠ toFixedStr 6 exPrepNeg.feeConfig.minimumCrosschainFee) := by
  refine ⟨rfl, by decide!, by decide!, by decide!, by decide!, by decide!⟩

/-- Claim C7 (amended): `_parseAmount` strips a leading `$` and a `USDC` label
(so `"$10"`, `"10.00"` and `"10 USDC"` all normalize to `"10.00"`), rejects
exactly the strings whose stripped remainder does not parse as a number with
the invalid-format validation error, and renormalizing an already-normalized
amount returns the same value for every output except the edge value
`"-0.00"`, which renormalizes to `"0.00"` — so normalization is NOT idempotent
on all outputs, only on those other than `"-0.00"`. -/
theorem uplink_c7_normalization :
    (∀ s : List Char, (_parseAmount ('$' :: s)).toOption = (_parseAmount s).toOption)
    ∧ (∀ s : List Char,
        (_parseAmount (s ++ (" USDC".toList))).toOption = (_parseAmount s).toOption)
    ∧ _parseAmount ("$10".toList) = .ok ("10.00".toList)
    ∧ _parseAmount ("10.00".toList) = .ok ("10.00".toList)
    ∧ _parseAmount ("10 USDC".toList) = .ok ("10.00".toList)
    ∧ (∀ s : List Char, (∃ e, _parseAmount s = .error e)
        ↔ parseFloat (trim (removeU (removeDollar (trim s)))) = none)
    ∧ (∀ (s : List Char) (e : UErr), _parseAmount s = .error e → e = .invalidFormat s)
    ∧ (∀ s v : List Char, _parseAmount s = .ok v → v ≠ "-0.00".toList →
        _parseAmount v = .ok v) := by
  refine ⟨?_, ?_, by decide!, by decide!, by decide!, parseAmount_error_iff, ?_, ?_⟩
  · intro s
    exact parseAmount_toOption_congr (normalized_dollar_cons s)
  · intro s
    exact parseAmount_toOption_congr (normalized_usdc_append s)
  · intro s e h
    exact parseAmount_error_shape h
  · intro s v h hne
    exact parseAmount_idem h hne

/-- Witness for C7: normalizing the normalized output `"10.00"` of `"$10"`
returns it unchanged. -/
theorem uplink_c7_witness : _parseAmount ("10.00".toList) = .ok ("10.00".toList) :=
  uplink_c7_normalization.2.2.2.2.2.2.2 ("$10".toList) ("10.00".toList)
    (by decide!) (by decide)

/-- Counterexample for C7 as frozen: normalization is not idempotent —
`"-0.001"` normalizes to the already-normalized output `"-0.00"`, but
renormalizing `"-0.00"` yields the different value `"0.00"`. -/
theorem uplink_c7_counterexample :
    _parseAmount ("-0.001".toList) = .ok ("-0.00".toList)
    ∧ _parseAmount ("-0.00".toList) = .ok ("0.00".toList)
    ∧ ("0.00".toList ≠ "-0.00".toList) := by
  refine ⟨by decide!, by decide!, by decide⟩

/-- Claim C9 (amended): for every amount string whose first non-whitespace
character is a dollar sign, `pay` rejects with the invalid-amount validation
error during local fee recomputation, independently of the signing result and
the settlement oracle — because `pay` hands `calculateFees` the raw caller
amount and `parseFloat` of a `$`-led string is NaN — even though `_parseAmount`
accepts the same string.  A dollar sign elsewhere in the string (e.g. `"10$"`)
does NOT trigger the rejection, since `parseFloat` reads the longest numeric
prefix. -/
theorem uplink_c9_dollar_rejection :
    (∀ (prep : PreparePaymentResponse) (amt : List Char)
        (signResult : Except UErr (List FacilitatorHeader)) (resp : ℕ → SettleResp),
      (amt.dropWhile isWS).head? = some '$' →
      pay prep amt signResult resp = .error .invalidAmount)
    ∧ _parseAmount ("$10".toList) = .ok ("10.00".toList) := by
  constructor
  · intro prep amt signResult resp hd
    exact pay_of_calculateFees_error (calculateFees_none (parseFloat_dollar_head hd))
      signResult resp
  · decide!

/-- Witness for C9: `pay` on `"$10"` rejects with the invalid-amount error even
with a valid Mode-B header and an always-succeeding settlement oracle. -/
theorem uplink_c9_witness :
    pay exPrepSame ("$10".toList) (.ok [exHdr]) (fun _ => .success ("tx".toList))
      = .error .invalidAmount :=
  uplink_c9_dollar_rejection.1 exPrepSame ("$10".toList) (.ok [exHdr])
    (fun _ => .success ("tx".toList)) (by decide)

/-- Counterexample for C9 as frozen: `"10$"` contains a dollar sign, yet
`calculateFees` accepts it (`parseFloat` reads the prefix `10`) and the
payment runs to successful settlement instead of being rejected. -/
theorem uplink_c9_counterexample :
    ('$' ∈ "10$".toList)
    ∧ calculateFees exPrepSame ("10$".toList) = .ok exFeesTen
    ∧ pay exPrepSame ("10$".toList)
        (_signPaymentEvm exEvmCtx ("W".toList) ("10$".toList) ("base".toList)
          ("base".toList))
        (fun _ => .success ("tx".toList)) = .ok ("tx".toList) := by
  refine ⟨by decide, by decide!, by decide!⟩

end Uplink
